import Mathlib

/-!
Verification development for the froide-evidencecollection synchronization
engine.  The definitions below are shallow embeddings of the Python code in
`froide_evidencecollection` (importer, exporter, abgeordnetenwatch importer,
utils, models).  Machine-level concerns (HTTP, ORM persistence) are modelled
as explicit state passing; fallible code returns `Except`/`Option`.
-/

namespace FroideEvidence

/-! ## Calendar dates (model of Python `datetime.date`) -/

/-- A calendar date, as Python `datetime.date`: a year/month/day triple. -/
structure Date where
  year : Nat
  month : Nat
  day : Nat
deriving DecidableEq, Repr

/-- Strict comparison of dates, as Python `date.__lt__` (lexicographic). -/
def Date.isBefore (a b : Date) : Bool :=
  decide (a.year < b.year ∨ (a.year = b.year ∧
    (a.month < b.month ∨ (a.month = b.month ∧ a.day < b.day))))

/-- Gregorian leap-year rule used by `datetime`. -/
def isLeapYear (y : Nat) : Bool :=
  y % 4 == 0 && (y % 100 != 0 || y % 400 == 0)

/-- Number of days in a month, as validated by the `datetime.date` constructor. -/
def daysInMonth (y m : Nat) : Nat :=
  if m = 2 then (if isLeapYear y then 29 else 28)
  else if m = 4 ∨ m = 6 ∨ m = 9 ∨ m = 11 then 30
  else 31

/-- Interpret a string of decimal digits; `Option.none` when the string is
empty or holds a non-digit. -/
def digitsToNat? (s : String) : Option Nat :=
  if s.length > 0 ∧ s.all Char.isDigit then
    some (s.foldl (fun acc c => acc * 10 + (c.toNat - 48)) 0)
  else Option.none

/-- Model of `datetime.datetime.strptime(s, "%Y-%m-%d").date()` as used in
`utils.equals` and `EvidenceImporter.prepare_row`: `%Y` matches exactly four
digits, `%m` and `%d` one or two digits, joined by literal dashes consuming
the whole string; the month must be 1..12 and the day valid for the month
(the `datetime` constructor check).  Returns `Option.none` where Python
raises `ValueError`. -/
def parseDate (s : String) : Option Date :=
  match s.splitOn "-" with
  | [ys, ms, ds] =>
    match digitsToNat? ys, digitsToNat? ms, digitsToNat? ds with
    | some y, some m, some d =>
      if ys.length = 4 ∧ (ms.length = 1 ∨ ms.length = 2) ∧
         (ds.length = 1 ∨ ds.length = 2) ∧
         1 ≤ m ∧ m ≤ 12 ∧ 1 ≤ d ∧ d ≤ daysInMonth y m then
        some ⟨y, m, d⟩
      else Option.none
    | _, _, _ => Option.none
  | _ => Option.none

/-! ## UUID strings (model of Python `uuid.UUID`) -/

/-- Value of a hexadecimal digit character. -/
def hexDigitToNat? (c : Char) : Option Nat :=
  if c.isDigit then some (c.toNat - 48)
  else if 'a' ≤ c ∧ c ≤ 'f' then some (c.toNat - 87)
  else if 'A' ≤ c ∧ c ≤ 'F' then some (c.toNat - 55)
  else Option.none

/-- Remove leading and trailing brace characters, as Python
`str.strip` with both brace characters in its argument. -/
def stripBraces (s : String) : String :=
  let isBrace : Char → Bool := fun c => c == '\x7b' || c == '\x7d'
  String.mk ((((s.toList.dropWhile isBrace).reverse).dropWhile isBrace).reverse)

/-- Model of the `uuid.UUID(hex=s)` constructor: occurrences of `urn:` and
`uuid:` are removed, surrounding braces stripped, dashes removed; what
remains must be exactly 32 hexadecimal digits, read as a 128-bit number.
Returns `Option.none` where Python raises `ValueError`. -/
def parseUUID (s : String) : Option Nat :=
  let t := (stripBraces ((s.replace "urn:" "").replace "uuid:" "")).replace "-" ""
  let cs := t.toList
  if cs.length = 32 then
    cs.foldl
      (fun acc c =>
        match acc, hexDigitToNat? c with
        | some a, some h => some (a * 16 + h)
        | _, _ => Option.none)
      (some 0)
  else Option.none

/-- One hexadecimal digit character (lowercase), for rendering UUIDs. -/
def hexChar (n : Nat) : Char :=
  if n < 10 then Char.ofNat (48 + n) else Char.ofNat (87 + n % 16)

/-- Fixed-width lowercase hexadecimal rendering, for `str(uuid)`. -/
def toHexFixed (width n : Nat) : List Char :=
  (List.range width).reverse.map (fun i => hexChar (n / 16 ^ i % 16))

/-- Model of `str(u)` for a `uuid.UUID`: 32 lowercase hex digits in
8-4-4-4-12 groups joined by dashes. -/
def uuidToString (u : Nat) : String :=
  String.intercalate "-"
    [String.mk (toHexFixed 8 (u / 16 ^ 24)),
     String.mk (toHexFixed 4 (u / 16 ^ 20 % 16 ^ 4)),
     String.mk (toHexFixed 4 (u / 16 ^ 16 % 16 ^ 4)),
     String.mk (toHexFixed 4 (u / 16 ^ 12 % 16 ^ 4)),
     String.mk (toHexFixed 12 (u % 16 ^ 12))]

/-! ## Python values

Field values moved around by the sync engine: `None`, booleans, integers,
strings, dates, UUIDs, lists of strings (Django `ArrayField`), and related
model instances (represented by their `name`, the only attribute the
exporter reads from them). -/

inductive PyValue where
  | vNone
  | vBool (b : Bool)
  | vInt (n : Int)
  | vStr (s : String)
  | vDate (d : Date)
  | vUUID (u : Nat)
  | vList (xs : List String)
  | vObj (name : String)
deriving DecidableEq, Repr

/-- Numeric view used by Python `==`: `True == 1` and `False == 0`. -/
def PyValue.toNum : PyValue → Option Int
  | .vBool b => some (if b then 1 else 0)
  | .vInt n => some n
  | _ => Option.none

/-- Python `==` on the embedded values: numeric comparison between
booleans/integers, structural equality within a kind, `False` across
kinds. -/
def pyEq (a b : PyValue) : Bool :=
  match a.toNum, b.toNum with
  | some x, some y => decide (x = y)
  | _, _ => decide (a = b)

/-- Python truthiness of the embedded values. -/
def pyTruthy : PyValue → Bool
  | .vNone => false
  | .vBool b => b
  | .vInt n => decide (n ≠ 0)
  | .vStr s => decide (s ≠ "")
  | .vDate _ => true
  | .vUUID _ => true
  | .vList xs => decide (xs ≠ [])
  | .vObj _ => true

/-! ## `utils.equals` — the update policy's value equality -/

/-- Embedding of `froide_evidencecollection.utils.equals`: when the old
value is a `date` and the new one a string, the string is parsed with
`%Y-%m-%d` (parse failure returns `False`); when the old value is a UUID
and the new one a string, the string is parsed as a UUID (parse failure
returns `False`); the final comparison is Python `==`. -/
def equals (old_value new_value : PyValue) : Bool :=
  match old_value, new_value with
  | .vDate d, .vStr s =>
    match parseDate s with
    | some d2 => pyEq (.vDate d) (.vDate d2)
    | Option.none => false
  | .vUUID u, .vStr s =>
    match parseUUID s with
    | some u2 => pyEq (.vUUID u) (.vUUID u2)
    | Option.none => false
  | o, n => pyEq o n

/-! ## `TableExporter.instance_to_payload` — outbound serialization -/

/-- Relation configuration entry relevant to payload building: the lookup
field name and whether the relation is a foreign key. -/
structure PayloadRelCfg where
  lookup_field : String
  is_fk : Bool
deriving DecidableEq, Repr

/-- Embedding of the per-field body of
`TableExporter.instance_to_payload`: `relCfg` is the entry of
`relation_config` for the field (`Option.none` when the field has none).
The result is `Option.none` when the field is not added to the payload at
all, `some v` when it is added with value `v`.  `None` is transmitted
unchanged (the loop continues before normalization); UUIDs stringify;
lists join with a comma; a foreign-key relation looked up by name sends
the related object's name; any other value passes through — and every
added value that is falsy is then normalized to `None`. -/
def payloadField (relCfg : Option PayloadRelCfg) (value : PyValue) : Option PyValue :=
  if value = .vNone then some .vNone
  else
    let base : Option PyValue :=
      match value with
      | .vUUID u => some (.vStr (uuidToString u))
      | .vList xs => some (.vStr (String.intercalate "," xs))
      | v =>
        match relCfg with
        | some cfg =>
          if cfg.lookup_field = "name" ∧ cfg.is_fk then
            match v with
            | .vObj name => some (.vStr name)
            | _ => Option.none
          else Option.none
        | Option.none => some v
    base.map (fun w => if pyTruthy w then w else .vNone)

/-! ## `MainModelImporter.update_instance` — preserve-local-edits policy -/

/-- One iteration of the field loop in `MainModelImporter.update_instance`:
a remote value is adopted only when the current local value is falsy and
`equals` says the values differ; adopting sets the `changed` flag. -/
def updateStep (acc : (String → PyValue) × Bool) (fv : String × PyValue) :
    (String → PyValue) × Bool :=
  if ¬ pyTruthy (acc.1 fv.1) ∧ ¬ equals (acc.1 fv.1) fv.2 then
    (Function.update acc.1 fv.1 fv.2, true)
  else acc

/-- Embedding of `MainModelImporter.update_instance` (abgeordnetenwatch.py):
the instance is a total assignment of values to field names
(`getattr`/`setattr`), `data` the mapped remote row in iteration order.
Returns the final field values and the `changed` flag; the instance is
saved exactly when `changed` is set. -/
def update_instance (inst : String → PyValue) (data : List (String × PyValue)) :
    (String → PyValue) × Bool :=
  data.foldl updateStep (inst, false)

theorem updateStep_fst_ne (acc : (String → PyValue) × Bool) (fv : String × PyValue)
    (f : String) (h : fv.1 ≠ f) : (updateStep acc fv).1 f = acc.1 f := by
  unfold updateStep
  split
  · exact Function.update_noteq (fun hf => h hf.symm) _ _
  · rfl

theorem updateStep_snd_true (acc : (String → PyValue) × Bool) (fv : String × PyValue)
    (h : acc.2 = true) : (updateStep acc fv).2 = true := by
  unfold updateStep
  split
  · rfl
  · exact h

theorem foldl_updateStep_fst_notMem (data : List (String × PyValue))
    (g : String → PyValue) (b : Bool) (f : String)
    (hf : f ∉ data.map Prod.fst) :
    (data.foldl updateStep (g, b)).1 f = g f := by
  induction data generalizing g b with
  | nil => rfl
  | cons fv rest ih =>
    simp only [List.map_cons, List.mem_cons, not_or] at hf
    have h1 : (updateStep (g, b) fv).1 f = g f :=
      updateStep_fst_ne _ _ _ (Ne.symm hf.1)
    rw [List.foldl_cons, ← Prod.mk.eta (p := updateStep (g, b) fv),
      ih _ _ hf.2, h1]

theorem foldl_updateStep_snd_true (data : List (String × PyValue))
    (acc : (String → PyValue) × Bool) (h : acc.2 = true) :
    (data.foldl updateStep acc).2 = true := by
  induction data generalizing acc with
  | nil => exact h
  | cons fv rest ih => exact ih _ (updateStep_snd_true _ _ h)

theorem foldl_updateStep_keep (data : List (String × PyValue))
    (g : String → PyValue) (b : Bool) (f : String) (v : PyValue)
    (hnodup : (data.map Prod.fst).Nodup) (hmem : (f, v) ∈ data)
    (htruthy : pyTruthy (g f) = true) :
    (data.foldl updateStep (g, b)).1 f = g f := by
  induction data generalizing g b with
  | nil => cases hmem
  | cons fv rest ih =>
    simp only [List.map_cons, List.nodup_cons] at hnodup
    rcases List.mem_cons.mp hmem with heq | hrest
    · subst heq
      have hstep : updateStep (g, b) (f, v) = (g, b) := by
        unfold updateStep
        rw [if_neg]
        intro hc
        exact hc.1 htruthy
      rw [List.foldl_cons, hstep]
      exact foldl_updateStep_fst_notMem rest g b f hnodup.1
    · have hne : fv.1 ≠ f := by
        intro hc
        exact hnodup.1 (hc ▸ List.mem_map_of_mem Prod.fst hrest)
      have hkeep : (updateStep (g, b) fv).1 f = g f := updateStep_fst_ne _ _ _ hne
      rw [List.foldl_cons, ← Prod.mk.eta (p := updateStep (g, b) fv),
        ih _ _ hnodup.2 hrest (by rw [hkeep]; exact htruthy), hkeep]

theorem foldl_updateStep_adopt (data : List (String × PyValue))
    (g : String → PyValue) (b : Bool) (f : String) (v : PyValue)
    (hnodup : (data.map Prod.fst).Nodup) (hmem : (f, v) ∈ data)
    (hfalsy : pyTruthy (g f) = false) (hne : equals (g f) v = false) :
    (data.foldl updateStep (g, b)).1 f = v ∧
    (data.foldl updateStep (g, b)).2 = true := by
  induction data generalizing g b with
  | nil => cases hmem
  | cons fv rest ih =>
    simp only [List.map_cons, List.nodup_cons] at hnodup
    rcases List.mem_cons.mp hmem with heq | hrest
    · subst heq
      have hc1 : ¬ pyTruthy (g f) = true := by rw [hfalsy]; exact Bool.false_ne_true
      have hc2 : ¬ equals (g f) v = true := by rw [hne]; exact Bool.false_ne_true
      have hstep : updateStep (g, b) (f, v) = (Function.update g f v, true) := by
        unfold updateStep
        rw [if_pos ⟨hc1, hc2⟩]
      rw [List.foldl_cons, hstep]
      refine ⟨?_, foldl_updateStep_snd_true _ _ rfl⟩
      rw [foldl_updateStep_fst_notMem rest _ _ f hnodup.1]
      exact Function.update_same f v g
    · have hne1 : fv.1 ≠ f := by
        intro hc
        exact hnodup.1 (hc ▸ List.mem_map_of_mem Prod.fst hrest)
      have hkeep : (updateStep (g, b) fv).1 f = g f := updateStep_fst_ne _ _ _ hne1
      rw [List.foldl_cons, ← Prod.mk.eta (p := updateStep (g, b) fv)]
      exact ih _ _ hnodup.2 hrest (by rw [hkeep]; exact hfalsy) (by rw [hkeep]; exact hne)

/-- C7: for every existing instance updated by the abgeordnetenwatch
importer's `update_instance` and every mapped field (field names distinct):
a truthy local value is kept whatever the remote value is, while a falsy
local value whose remote value is not `equals`-equal is overwritten by the
remote value, and the instance is then saved (`changed` flag set). -/
theorem C7_update_instance_preserves_local_edits
    (inst : String → PyValue) (data : List (String × PyValue))
    (f : String) (v : PyValue)
    (hnodup : (data.map Prod.fst).Nodup) (hmem : (f, v) ∈ data) :
    (pyTruthy (inst f) = true → (update_instance inst data).1 f = inst f) ∧
    (pyTruthy (inst f) = false → equals (inst f) v = false →
      (update_instance inst data).1 f = v ∧ (update_instance inst data).2 = true) := by
  constructor
  · intro ht
    exact foldl_updateStep_keep data inst false f v hnodup hmem ht
  · intro hf hne
    exact foldl_updateStep_adopt data inst false f v hnodup hmem hf hne

/-- Concrete instantiation of the `update_instance` theorem: an empty local
`title` adopts the remote value and the instance is saved; a set local
`first_name` survives a differing remote value. -/
theorem C7_update_instance_preserves_local_edits_witness :
    (update_instance (fun _ => .vNone) [("title", .vStr "Dr.")]).1 "title" = .vStr "Dr." ∧
    (update_instance (fun _ => .vNone) [("title", .vStr "Dr.")]).2 = true ∧
    (update_instance (fun _ => .vStr "Alt") [("first_name", .vStr "Neu")]).1 "first_name"
      = .vStr "Alt" := by
  refine ⟨?_, ?_, ?_⟩
  · exact ((C7_update_instance_preserves_local_edits (fun _ => .vNone)
      [("title", .vStr "Dr.")] "title" (.vStr "Dr.") (by simp) (by simp)).2
      (by decide) (by decide)).1
  · exact ((C7_update_instance_preserves_local_edits (fun _ => .vNone)
      [("title", .vStr "Dr.")] "title" (.vStr "Dr.") (by simp) (by simp)).2
      (by decide) (by decide)).2
  · exact (C7_update_instance_preserves_local_edits (fun _ => .vStr "Alt")
      [("first_name", .vStr "Neu")] "first_name" (.vStr "Neu") (by simp) (by simp)).1
      (by decide)

/-! ## Claim C9 — `utils.equals` specification -/

/-- C9: `utils.equals` returns `true` on a date old value and string new
value exactly when the string parses as a `%Y-%m-%d` date equal to it, and
on a UUID old value and string new value exactly when the string parses to
the same UUID (so an unparseable string yields `false`); in every other
case it is Python equality of the two values. -/
theorem C9_equals_value_equality :
    (∀ d s, equals (.vDate d) (.vStr s) = true ↔ parseDate s = some d)
  ∧ (∀ u s, equals (.vUUID u) (.vStr s) = true ↔ parseUUID s = some u)
  ∧ (∀ o n, (∀ d s, ¬(o = .vDate d ∧ n = .vStr s)) →
      (∀ u s, ¬(o = .vUUID u ∧ n = .vStr s)) →
      equals o n = pyEq o n) := by
  refine ⟨?_, ?_, ?_⟩
  · intro d s
    unfold equals
    cases h : parseDate s with
    | none => simp [h]
    | some d2 =>
      simp only [h, pyEq, PyValue.toNum, decide_eq_true_eq, Option.some.injEq]
      constructor
      · intro he
        rw [PyValue.vDate.injEq] at he
        exact he ▸ rfl
      · intro he
        rw [PyValue.vDate.injEq]
        exact he.symm
  · intro u s
    unfold equals
    cases h : parseUUID s with
    | none => simp [h]
    | some u2 =>
      simp only [h, pyEq, PyValue.toNum, decide_eq_true_eq, Option.some.injEq]
      constructor
      · intro he
        rw [PyValue.vUUID.injEq] at he
        exact he ▸ rfl
      · intro he
        rw [PyValue.vUUID.injEq]
        exact he.symm
  · intro o n h1 h2
    cases o <;> cases n <;>
      first
        | rfl
        | (exact absurd ⟨rfl, rfl⟩ (h1 _ _))
        | (exact absurd ⟨rfl, rfl⟩ (h2 _ _))

/-- Concrete instantiation of the `equals` specification at a parsing date
comparison, a failing parse, and a plain-equality case. -/
theorem C9_equals_value_equality_witness :
    (equals (.vDate ⟨2024, 4, 29⟩) (.vStr "2024-04-29") = true ↔
      parseDate "2024-04-29" = some ⟨2024, 4, 29⟩)
  ∧ (equals (.vUUID 7) (.vStr "not-a-uuid") = true ↔
      parseUUID "not-a-uuid" = some 7)
  ∧ equals (.vStr "a") (.vStr "a") = pyEq (.vStr "a") (.vStr "a") := by
  refine ⟨C9_equals_value_equality.1 _ _, C9_equals_value_equality.2.1 _ _, ?_⟩
  exact C9_equals_value_equality.2.2 _ _
    (fun d s h => PyValue.noConfusion h.1)
    (fun u s h => PyValue.noConfusion h.1)

/-! ## Claim C10 — outbound payload normalization -/

theorem normalized_ne_int_zero (w : PyValue) :
    (if pyTruthy w then w else PyValue.vNone) ≠ .vInt 0 := by
  by_cases h : pyTruthy w = true
  · rw [if_pos h]
    rintro rfl
    simp [pyTruthy] at h
  · rw [if_neg h]
    intro hc
    cases hc

theorem normalized_ne_bool_false (w : PyValue) :
    (if pyTruthy w then w else PyValue.vNone) ≠ .vBool false := by
  by_cases h : pyTruthy w = true
  · rw [if_pos h]
    rintro rfl
    simp [pyTruthy] at h
  · rw [if_neg h]
    intro hc
    cases hc

/-- C10: `instance_to_payload` transmits `None` as `None`, normalizes every
falsy serialized value (empty string, empty list join, integer `0`,
boolean `False`) to `None`, and consequently never transmits `0` or
`False` as themselves for any field value or relation configuration. -/
theorem C10_payload_falsy_normalization :
    payloadField Option.none .vNone = some .vNone
  ∧ payloadField Option.none (.vStr "") = some .vNone
  ∧ payloadField Option.none (.vList []) = some .vNone
  ∧ payloadField Option.none (.vInt 0) = some .vNone
  ∧ payloadField Option.none (.vBool false) = some .vNone
  ∧ ∀ cfg v, payloadField cfg v ≠ some (.vInt 0) ∧
      payloadField cfg v ≠ some (.vBool false) := by
  refine ⟨by decide, by decide, by decide, by decide, by decide, ?_⟩
  intro cfg v
  constructor <;> intro hc <;> simp only [payloadField] at hc
  · split at hc
    · cases Option.some.inj hc
    · obtain ⟨w, _, he⟩ := Option.map_eq_some'.mp hc
      exact normalized_ne_int_zero w he
  · split at hc
    · cases Option.some.inj hc
    · obtain ⟨w, _, he⟩ := Option.map_eq_some'.mp hc
      exact normalized_ne_bool_false w he

/-! ## `SyncableModel` sync metadata

The `save(sync=...)`, `mark_synced` and `is_synced` members of
`SyncableModel` are called by the exporter and asserted on by the tests but
are not present in `models.py` in the source tree; they are modelled from
the spec below. -/

/-- Sync metadata of a `SyncableModel` instance: the `updated_at` and
`synced_at` timestamps (an abstract discrete clock). -/
structure SyncState where
  updated_at : Nat
  synced_at : Option Nat
deriving DecidableEq, Repr

/-- Modelled from the spec: `SyncableModel.save` is missing from the source
tree; per the spec, "`synced_at` advances only on an explicit sync-aware
save; ordinary saves advance `updated_at` but not `synced_at`".  `now` is
the timestamp assigned by the save. -/
def SyncState.save (s : SyncState) (sync : Bool) (now : Nat) : SyncState :=
  { updated_at := now, synced_at := if sync then some now else s.synced_at }

/-- Modelled from the spec: `is_synced` holds exactly when no local
mutation happened since the last sync, i.e. `synced_at == updated_at`. -/
def SyncState.is_synced (s : SyncState) : Bool :=
  s.synced_at == some s.updated_at

/-- Modelled from the spec: `mark_synced` records the current `updated_at`
as the sync time without performing a save. -/
def SyncState.mark_synced (s : SyncState) : SyncState :=
  { s with synced_at := some s.updated_at }

/-- A sync state never synced in the future: `synced_at`, when set, does
not exceed `updated_at`.  Every reachable state satisfies this (saves set
`synced_at` at most to the new `updated_at`). -/
def SyncState.Wf (s : SyncState) : Prop :=
  ∀ t ∈ s.synced_at, t ≤ s.updated_at

/-- C6: `is_synced` holds iff `synced_at` equals `updated_at`; an ordinary
save advances `updated_at` but never `synced_at` and moves a well-formed
instance out of sync, while a sync-aware save leaves the instance
synced. -/
theorem C6_syncable_model_is_synced_invariant :
    (∀ s : SyncState, s.is_synced = true ↔ s.synced_at = some s.updated_at)
  ∧ (∀ (s : SyncState) (now : Nat), s.updated_at < now →
      (s.save false now).updated_at = now ∧
      (s.save false now).synced_at = s.synced_at ∧
      (s.Wf → (s.save false now).is_synced = false))
  ∧ (∀ (s : SyncState) (now : Nat), (s.save true now).is_synced = true) := by
  refine ⟨?_, ?_, ?_⟩
  · intro s
    exact beq_iff_eq
  · intro s now hlt
    refine ⟨rfl, rfl, ?_⟩
    intro hwf
    simp only [SyncState.is_synced, SyncState.save, if_neg Bool.false_ne_true]
    cases h : s.synced_at with
    | none => rfl
    | some t =>
      have ht : t ≤ s.updated_at := hwf t (h ▸ rfl)
      have : some t ≠ some now := by
        intro hc
        exact absurd (Option.some.inj hc ▸ ht) (Nat.not_le.mpr hlt)
      exact beq_eq_false_iff_ne.mpr this
  · intro s now
    simp [SyncState.is_synced, SyncState.save]

/-- Concrete instantiation of the sync invariant: a synced state at time 5,
saved normally at time 6, is out of sync; saved sync-aware it stays
synced. -/
theorem C6_syncable_model_is_synced_invariant_witness :
    ((⟨5, some 5⟩ : SyncState).is_synced = true ↔
      (⟨5, some 5⟩ : SyncState).synced_at = some 5)
  ∧ ((⟨5, some 5⟩ : SyncState).save false 6).is_synced = false
  ∧ ((⟨5, some 5⟩ : SyncState).save true 6).is_synced = true := by
  refine ⟨C6_syncable_model_is_synced_invariant.1 _, ?_, ?_⟩
  · exact (C6_syncable_model_is_synced_invariant.2.1 ⟨5, some 5⟩ 6 (by decide)).2.2
      (by intro t ht; cases ht; decide)
  · exact C6_syncable_model_is_synced_invariant.2.2 ⟨5, some 5⟩ 6

/-! ## `AffiliationImporter.process_rows` — date fallback rule -/

/-- An election or legislative period as read by the affiliation importer:
aw ID, period dates, and the fraction organization of its parliament
(`period.parliament.fraction`), given by primary key. -/
structure AwPeriod where
  aw_id : Nat
  start_date : Option Date
  end_date : Option Date
  fraction_pk : Nat
deriving DecidableEq, Repr

/-- A remote candidacy/mandate row, with the fields read by
`AffiliationImporter.process_rows`. -/
structure AwRow where
  id : Nat
  parliament_period_id : Nat
  politician_id : Nat
  start_date : Option Date
  end_date : Option Date
  info : Option String
deriving DecidableEq, Repr

/-- The affiliation field dictionary built for one candidacy/mandate row. -/
structure AwAffiliationData where
  aw_id : Nat
  person_pk : Nat
  organization_pk : Nat
  role_pk : Nat
  start_date : Option Date
  end_date : Option Date
  comment : String
deriving DecidableEq, Repr

/-- Modelled from the spec: `filter_future_date` is imported from
`froide_evidencecollection.utils` by the abgeordnetenwatch importer but
missing from the source tree; per the spec, "an end date that falls in the
future relative to the run's current date is suppressed to `None`". -/
def filter_future_date (today : Date) (d : Option Date) : Option Date :=
  match d with
  | Option.none => Option.none
  | some dd => if today.isBefore dd then Option.none else some dd

/-- Lookup of `in_bulk(field_name="aw_id")` results. -/
def lookupPeriod (periods : List AwPeriod) (k : Nat) : Option AwPeriod :=
  periods.find? (fun p => p.aw_id == k)

/-- Dictionary insertion: replace the value at an existing key, append a
new key (Python dict assignment order). -/
def upsert {α β : Type} [DecidableEq α] (xs : List (α × β)) (k : α) (v : β) :
    List (α × β) :=
  if xs.any (fun p => p.1 == k) then
    xs.map (fun p => if p.1 == k then (k, v) else p)
  else xs ++ [(k, v)]

/-- Embedding of `AffiliationImporter.process_rows`: per row, the enclosing
period is looked up by `parliament_period.id` (an `ImportError` when
missing), the person comes from the `get_persons` map (an attribute crash
— modelled as an error — when absent), the organization is the period's
parliament's fraction, and the dates fall back from the row to the period,
the end date passed through `filter_future_date`.  `obj_data` is the
accumulated dictionary keyed by row ID. -/
def process_rows (today : Date) (periods : List AwPeriod)
    (persons : List (Nat × Nat)) (role_pk : Nat)
    (obj_data : List (Nat × AwAffiliationData)) :
    List AwRow → Except String (List (Nat × AwAffiliationData))
  | [] => Except.ok obj_data
  | row :: rest =>
    match lookupPeriod periods row.parliament_period_id with
    | Option.none => Except.error "period not found"
    | some period =>
      match persons.find? (fun p => p.1 == row.politician_id) with
      | Option.none => Except.error "person not found"
      | some person =>
        let data : AwAffiliationData :=
          { aw_id := row.id
            person_pk := person.2
            organization_pk := period.fraction_pk
            role_pk := role_pk
            start_date := match row.start_date with
              | some d => some d
              | Option.none => period.start_date
            end_date := filter_future_date today
              (match row.end_date with
               | some d => some d
               | Option.none => period.end_date)
            comment := match row.info with
              | some s => s
              | Option.none => "" }
        process_rows today periods persons role_pk (upsert obj_data row.id data) rest

/-- The date rule claimed for an entry of the built dictionary. -/
def DatesFromRow (today : Date) (periods : List AwPeriod) (rows : List AwRow)
    (e : Nat × AwAffiliationData) : Prop :=
  ∃ row ∈ rows, ∃ period,
    lookupPeriod periods row.parliament_period_id = some period ∧
    e.1 = row.id ∧
    e.2.start_date = (match row.start_date with
      | some d => some d
      | Option.none => period.start_date) ∧
    e.2.end_date = filter_future_date today
      (match row.end_date with
       | some d => some d
       | Option.none => period.end_date) ∧
    (∀ d, e.2.end_date = some d → today.isBefore d = false)

theorem mem_upsert {α β : Type} [DecidableEq α] (xs : List (α × β)) (k : α) (v : β)
    (e : α × β) (he : e ∈ upsert xs k v) : e ∈ xs ∨ e = (k, v) := by
  unfold upsert at he
  split at he
  · obtain ⟨p, hp, hpe⟩ := List.mem_map.mp he
    by_cases hk : p.1 = k
    · right
      rw [← hpe]
      simp [hk]
    · left
      rw [← hpe]
      simp only [beq_iff_eq, hk, if_neg]
      exact hp
  · rcases List.mem_append.mp he with h | h
    · exact Or.inl h
    · exact Or.inr (List.mem_singleton.mp h)

theorem filter_future_date_not_future (today : Date) (x : Option Date) (d : Date)
    (h : filter_future_date today x = some d) : today.isBefore d = false := by
  cases x with
  | none => simp [filter_future_date] at h
  | some dd =>
    simp only [filter_future_date] at h
    by_cases hb : today.isBefore dd = true
    · rw [if_pos hb] at h
      cases h
    · rw [if_neg hb] at h
      cases Option.some.inj h
      exact Bool.eq_false_iff.mpr hb

theorem process_rows_entries (today : Date) (periods : List AwPeriod)
    (persons : List (Nat × Nat)) (role_pk : Nat) :
    ∀ (rows : List AwRow) (obj_data out : List (Nat × AwAffiliationData)),
      process_rows today periods persons role_pk obj_data rows = Except.ok out →
      ∀ e ∈ out, e ∈ obj_data ∨ DatesFromRow today periods rows e := by
  intro rows
  induction rows with
  | nil =>
    intro obj_data out hok e he
    cases hok
    exact Or.inl he
  | cons row rest ih =>
    intro obj_data out hok e he
    unfold process_rows at hok
    cases hp : lookupPeriod periods row.parliament_period_id with
    | none => rw [hp] at hok; cases hok
    | some period =>
      rw [hp] at hok
      cases hper : persons.find? (fun p => p.1 == row.politician_id) with
      | none => rw [hper] at hok; cases hok
      | some person =>
        rw [hper] at hok
        rcases ih _ _ hok e he with hacc | hrest
        · rcases mem_upsert _ _ _ _ hacc with h | h
          · exact Or.inl h
          · right
            refine ⟨row, List.mem_cons_self _ _, period, hp, ?_⟩
            subst h
            refine ⟨rfl, rfl, rfl, ?_⟩
            intro d hd
            exact filter_future_date_not_future today _ d hd
        · right
          obtain ⟨r, hr, rest_of⟩ := hrest
          exact ⟨r, List.mem_cons_of_mem _ hr, rest_of⟩

/-- C8: every affiliation entry built by `AffiliationImporter.process_rows`
takes its start date from the row or, when the row has none, from the
enclosing period, and its end date likewise from the row or the period,
suppressed to `None` whenever it lies in the future relative to the run's
current date. -/
theorem C8_affiliation_date_fallback (today : Date) (periods : List AwPeriod)
    (persons : List (Nat × Nat)) (role_pk : Nat) (rows : List AwRow)
    (out : List (Nat × AwAffiliationData))
    (hok : process_rows today periods persons role_pk [] rows = Except.ok out) :
    ∀ e ∈ out, DatesFromRow today periods rows e := by
  intro e he
  rcases process_rows_entries today periods persons role_pk rows [] out hok e he with h | h
  · cases h
  · exact h

/-- Concrete instantiation of the date fallback: a candidacy row without
dates against an election running 2024-04-29 to 2024-06-09, imported on
2024-05-01, copies the start date and suppresses the future end date. -/
theorem C8_affiliation_date_fallback_witness :
    DatesFromRow ⟨2024, 5, 1⟩ [⟨10, some ⟨2024, 4, 29⟩, some ⟨2024, 6, 9⟩, 22⟩]
      [⟨42, 10, 7, Option.none, Option.none, Option.none⟩]
      (42, ⟨42, 70, 22, 3, some ⟨2024, 4, 29⟩, Option.none, ""⟩) :=
  C8_affiliation_date_fallback ⟨2024, 5, 1⟩
    [⟨10, some ⟨2024, 4, 29⟩, some ⟨2024, 6, 9⟩, 22⟩] [(7, 70)] 3
    [⟨42, 10, 7, Option.none, Option.none, Option.none⟩]
    [(42, ⟨42, 70, 22, 3, some ⟨2024, 4, 29⟩, Option.none, ""⟩)] rfl
    _ (List.mem_singleton.mpr rfl)

/-! ## Sync-aware NocoDB import of one row

The sync-aware `TableImporter` exercised by `tests/test_importer.py`
(`RoleImporter`, `PersonImporter`, …) is not present in the source tree:
the checked-in `importer.py` is a superseded variant without sync-identity
handling.  The per-row create-or-update step is therefore modelled from the
spec. -/

/-- A local record of a syncable model as seen by the sync-aware importer:
primary key, `external_id`, `sync_uuid`, scalar fields, sync state. -/
structure SyncRecord where
  pk : Nat
  external_id : Nat
  sync_uuid : Nat
  fields : List (String × PyValue)
  sync : SyncState
deriving DecidableEq, Repr

/-- A remote NocoDB row mapped for a syncable model: `external_id`, the
optional sync identifier carried by the row, and scalar fields. -/
structure SyncRow where
  external_id : Nat
  sync_uuid : Option Nat
  fields : List (String × PyValue)
deriving DecidableEq, Repr

/-- Modelled from the spec: the sync-aware
`TableImporter.create_or_update_instance` is missing from the source tree.
Per the spec: a remote sync identifier differing from the already-present
local one for the same `external_id` aborts the row with a hard identity
conflict (never silently merging); a remote row without a sync identifier
against an existing record skips the update, preserving the local
identifier; otherwise changed fields are adopted with a sync-aware save.
Returns the record after the step, the skipped-messages list, and the
raised error, if any. -/
def sync_create_or_update_instance (existing : Option SyncRecord) (row : SyncRow)
    (fresh_uuid fresh_pk now : Nat) :
    Option SyncRecord × List String × Option String :=
  match existing with
  | some rec =>
    match row.sync_uuid with
    | some u =>
      if u ≠ rec.sync_uuid then
        (some rec, [], some "Sync UUID conflict")
      else if rec.fields ≠ row.fields then
        (some { rec with fields := row.fields, sync := rec.sync.save true now },
         [], Option.none)
      else (some rec, [], Option.none)
    | Option.none =>
      (some rec, ["no sync UUID in import data, skipping update"], Option.none)
  | Option.none =>
    match row.sync_uuid with
    | some u =>
      (some { pk := fresh_pk, external_id := row.external_id, sync_uuid := u,
              fields := row.fields,
              sync := SyncState.save ⟨0, Option.none⟩ true now },
       [], Option.none)
    | Option.none =>
      (some { pk := fresh_pk, external_id := row.external_id,
              sync_uuid := fresh_uuid, fields := row.fields,
              sync := SyncState.save ⟨0, Option.none⟩ false now },
       [], Option.none)

/-- C1: a remote row whose `external_id` matches an existing local record
but which carries a non-null sync identifier different from the local
`sync_uuid` raises a hard identity-conflict error and leaves the local
record unmodified — the two identities are never merged. -/
theorem C1_sync_uuid_conflict_aborts_row (rec : SyncRecord) (row : SyncRow)
    (u fresh_uuid fresh_pk now : Nat)
    (_hext : row.external_id = rec.external_id)
    (hu : row.sync_uuid = some u) (hne : u ≠ rec.sync_uuid) :
    (sync_create_or_update_instance (some rec) row fresh_uuid fresh_pk now).1
      = some rec ∧
    (sync_create_or_update_instance (some rec) row fresh_uuid fresh_pk now).2.2
      = some "Sync UUID conflict" := by
  simp [sync_create_or_update_instance, hu, hne]

/-- Concrete instantiation of the identity-conflict rule: local record with
`external_id = 37`, `sync_uuid = 100`, remote row `external_id = 37` with
sync identifier `200`. -/
theorem C1_sync_uuid_conflict_aborts_row_witness :
    (sync_create_or_update_instance
        (some ⟨1, 37, 100, [], ⟨0, Option.none⟩⟩) ⟨37, some 200, []⟩ 9 8 3).1
      = some ⟨1, 37, 100, [], ⟨0, Option.none⟩⟩ ∧
    (sync_create_or_update_instance
        (some ⟨1, 37, 100, [], ⟨0, Option.none⟩⟩) ⟨37, some 200, []⟩ 9 8 3).2.2
      = some "Sync UUID conflict" :=
  C1_sync_uuid_conflict_aborts_row ⟨1, 37, 100, [], ⟨0, Option.none⟩⟩
    ⟨37, some 200, []⟩ 200 9 8 3 rfl rfl (by decide)

/-! ## `TableExporter.create_records` / `update_links` — push pipeline -/

/-- A related model instance as read by `get_changed_relations`: primary
key and remote `external_id`. -/
structure RelTarget where
  pk : Nat
  external_id : Option Nat
deriving DecidableEq, Repr

/-- One entry of `relation_config` carrying a NocoDB link `field_id`. -/
structure RelFieldCfg where
  model_field : String
  field_id : Nat
deriving DecidableEq, Repr

/-- A local instance as handled by `TableExporter.create_records`:
primary key, `external_id`, sync state, the related instance reachable
through each relation field (`getattr`), and the related primary key
recorded per field at the last successful sync (`last_synced_state`). -/
structure ExpInst where
  pk : Nat
  external_id : Option Nat
  sync : SyncState
  rel : String → Option RelTarget
  last_synced_state : String → Option Nat

/-- A failed-link entry as tracked by `ExportStats.track_failed_link`
(modelled from the spec: `ExportStatsCollection` is imported by the
exporter but missing from `utils.py` in the source tree; the entry names
the model, the field, the record and the link target, as asserted by the
exporter tests). -/
structure FailedLink where
  model : String
  field_id : Nat
  record_id : Option Nat
  rel_instance_id : Nat
deriving DecidableEq, Repr

/-- Truthiness-guarded equality check of `update_links`:
`if last_rel_id and last_rel_id == rel_instance.pk`. -/
def lastRelUnchanged (last : Option Nat) (pk : Nat) : Bool :=
  match last with
  | some l => decide (l ≠ 0 ∧ l = pk)
  | Option.none => false

/-- Embedding of `TableExporter.get_changed_relations`: per configured
relation field, a related instance that is absent is skipped, one whose
primary key equals the truthy last-synced value is skipped as unchanged, a
related instance without an `external_id` raises `ValueError`, and the
rest contribute one `(field_id, external_id)` link. -/
def get_changed_relations (inst : ExpInst) :
    List RelFieldCfg → Except String (List (Nat × Nat))
  | [] => Except.ok []
  | c :: rest =>
    match inst.rel c.model_field with
    | Option.none => get_changed_relations inst rest
    | some t =>
      if lastRelUnchanged (inst.last_synced_state c.model_field) t.pk then
        get_changed_relations inst rest
      else
        match t.external_id with
        | Option.none => Except.error "related instance has no external ID"
        | some e =>
          match get_changed_relations inst rest with
          | Except.error msg => Except.error msg
          | Except.ok tail => Except.ok ((c.field_id, e) :: tail)

/-- The link-call loop of `TableExporter.update_links`: calls are issued
sequentially; the first failing call tracks exactly one failed-link entry
and re-raises, aborting the remaining calls. -/
def linkLoop (modelName : String) (recordId : Option Nat)
    (linkOk : Nat → Nat → Bool) :
    List (Nat × Nat) → List FailedLink × Option String
  | [] => ([], Option.none)
  | (fid, rid) :: rest =>
    if linkOk fid rid then linkLoop modelName recordId linkOk rest
    else ([⟨modelName, fid, recordId, rid⟩], some "link call failed")

/-- Embedding of `TableExporter.update_links`: resolves the changed
relations (propagating their error without tracking anything) and runs the
link-call loop.  `linkOk fid rid` is the remote outcome of the link call
for field `fid` and target `rid`. -/
def update_links (modelName : String) (cfg : List RelFieldCfg)
    (linkOk : Nat → Nat → Bool) (inst : ExpInst) :
    List FailedLink × Option String :=
  match get_changed_relations inst cfg with
  | Except.error e => ([], some e)
  | Except.ok rels => linkLoop modelName inst.external_id linkOk rels

/-- The per-instance body of the loop in `TableExporter.create_records`:
the returned `external_id` is persisted immediately
(`save(update_fields=["external_id"])`); then `update_links` runs — an
exception from it is caught and processing continues, leaving the instance
created but not sync-saved; otherwise `save(sync=True)` marks it synced at
`now`. -/
def createOne (modelName : String) (cfg : List RelFieldCfg)
    (linkOk : Nat → Nat → Bool) (now : Nat) (p : ExpInst × Nat) :
    ExpInst × List FailedLink :=
  let withId : ExpInst := { p.1 with external_id := some p.2 }
  match update_links modelName cfg linkOk withId with
  | (fails, some _) => (withId, fails)
  | (_, Option.none) => ({ withId with sync := withId.sync.save true now }, [])

/-- Embedding of `TableExporter.create_records`: a response carrying a
number of record IDs different from the number of submitted instances
raises for the whole batch before any instance is touched; otherwise each
instance is paired with its response ID in order and processed by
`createOne`.  Returns the final instances, the tracked failed-link
entries, and the raised batch error, if any. -/
def create_records (modelName : String) (cfg : List RelFieldCfg)
    (linkOk : Nat → Nat → Bool) (now : Nat)
    (insts : List ExpInst) (respIds : List Nat) :
    List ExpInst × List FailedLink × Option String :=
  if respIds.length ≠ insts.length then
    (insts, [], some "Mismatch between submitted instances and record IDs")
  else
    let results := (insts.zip respIds).map (createOne modelName cfg linkOk now)
    (results.map Prod.fst, (results.map Prod.snd).flatten, Option.none)

/-- C3: a batch-create response whose ID count differs from the number of
submitted instances raises an error for the whole batch and leaves every
submitted instance without a new `external_id`. -/
theorem C3_create_count_mismatch_aborts_batch (modelName : String)
    (cfg : List RelFieldCfg) (linkOk : Nat → Nat → Bool) (now : Nat)
    (insts : List ExpInst) (respIds : List Nat)
    (hmm : respIds.length ≠ insts.length)
    (hnone : ∀ i ∈ insts, i.external_id = Option.none) :
    (create_records modelName cfg linkOk now insts respIds).2.2.isSome = true ∧
    (create_records modelName cfg linkOk now insts respIds).1 = insts ∧
    ∀ i ∈ (create_records modelName cfg linkOk now insts respIds).1,
      i.external_id = Option.none := by
  unfold create_records
  rw [if_pos hmm]
  exact ⟨rfl, rfl, hnone⟩

/-- Concrete instantiation of the count-mismatch rule: two never-synced
instances against a single returned ID. -/
theorem C3_create_count_mismatch_aborts_batch_witness :
    (create_records "Role" [] (fun _ _ => true) 1
        [⟨1, Option.none, ⟨0, Option.none⟩, fun _ => Option.none, fun _ => Option.none⟩,
         ⟨2, Option.none, ⟨0, Option.none⟩, fun _ => Option.none, fun _ => Option.none⟩]
        [42]).2.2.isSome = true ∧
    ∀ i ∈ (create_records "Role" [] (fun _ _ => true) 1
        [⟨1, Option.none, ⟨0, Option.none⟩, fun _ => Option.none, fun _ => Option.none⟩,
         ⟨2, Option.none, ⟨0, Option.none⟩, fun _ => Option.none, fun _ => Option.none⟩]
        [42]).1, i.external_id = Option.none := by
  refine ⟨?_, ?_⟩
  · exact (C3_create_count_mismatch_aborts_batch "Role" [] (fun _ _ => true) 1 _ _
      (by decide) (by
        intro i hi
        rcases List.mem_cons.mp hi with h | h
        · rw [h]
        · rw [List.mem_singleton.mp h])).1
  · exact (C3_create_count_mismatch_aborts_batch "Role" [] (fun _ _ => true) 1 _ _
      (by decide) (by
        intro i hi
        rcases List.mem_cons.mp hi with h | h
        · rw [h]
        · rw [List.mem_singleton.mp h])).2.2

theorem linkLoop_first_failure (modelName : String) (recordId : Option Nat)
    (linkOk : Nat → Nat → Bool) (rels : List (Nat × Nat))
    (hfail : ∃ r ∈ rels, linkOk r.1 r.2 = false) :
    ∃ e : FailedLink,
      (linkLoop modelName recordId linkOk rels).1 = [e] ∧
      (linkLoop modelName recordId linkOk rels).2.isSome = true ∧
      e.model = modelName ∧ e.record_id = recordId ∧
      (e.field_id, e.rel_instance_id) ∈ rels ∧
      linkOk e.field_id e.rel_instance_id = false := by
  induction rels with
  | nil =>
    obtain ⟨r, hr, _⟩ := hfail
    cases hr
  | cons r rest ih =>
    obtain ⟨fid, rid⟩ := r
    by_cases hok : linkOk fid rid = true
    · have hrest : ∃ r ∈ rest, linkOk r.1 r.2 = false := by
        obtain ⟨r2, hr2, hf2⟩ := hfail
        rcases List.mem_cons.mp hr2 with h | h
        · subst h
          rw [hok] at hf2
          cases hf2
        · exact ⟨r2, h, hf2⟩
      obtain ⟨e, h1, h2, h3, h4, h5, h6⟩ := ih hrest
      refine ⟨e, ?_, ?_, h3, h4, List.mem_cons_of_mem _ h5, h6⟩
      · unfold linkLoop
        rw [if_pos hok]
        exact h1
      · unfold linkLoop
        rw [if_pos hok]
        exact h2
    · refine ⟨⟨modelName, fid, recordId, rid⟩, ?_, ?_, rfl, rfl,
        List.mem_cons_self _ _, Bool.eq_false_iff.mpr hok⟩
      · unfold linkLoop
        rw [if_neg hok]
      · unfold linkLoop
        rw [if_neg hok]
        rfl


theorem createOne_external_id (modelName : String) (cfg : List RelFieldCfg)
    (linkOk : Nat → Nat → Bool) (now : Nat) (p : ExpInst × Nat) :
    (createOne modelName cfg linkOk now p).1.external_id = some p.2 := by
  simp only [createOne]
  rcases update_links modelName cfg linkOk { p.1 with external_id := some p.2 }
    with ⟨fs, err⟩
  cases err <;> rfl

theorem createOne_link_failure (modelName : String) (cfg : List RelFieldCfg)
    (linkOk : Nat → Nat → Bool) (now : Nat) (p : ExpInst × Nat)
    (rels : List (Nat × Nat))
    (hrels : get_changed_relations { p.1 with external_id := some p.2 } cfg
      = Except.ok rels)
    (hfail : ∃ r ∈ rels, linkOk r.1 r.2 = false) :
    ∃ e : FailedLink,
      createOne modelName cfg linkOk now p
        = ({ p.1 with external_id := some p.2 }, [e]) ∧
      e.model = modelName ∧ e.record_id = some p.2 ∧
      (e.field_id, e.rel_instance_id) ∈ rels ∧
      linkOk e.field_id e.rel_instance_id = false := by
  obtain ⟨e, he1, he2, he3, he4, he5, he6⟩ :=
    linkLoop_first_failure modelName (some p.2) linkOk rels hfail
  have hul : update_links modelName cfg linkOk { p.1 with external_id := some p.2 }
      = linkLoop modelName (some p.2) linkOk rels := by
    unfold update_links
    rw [hrels]
  refine ⟨e, ?_, he3, he4, he5, he6⟩
  simp only [createOne]
  rw [hul]
  rcases herr : (linkLoop modelName (some p.2) linkOk rels).2 with _ | msg
  · rw [herr] at he2
    cases he2
  · rw [← Prod.mk.eta (p := linkLoop modelName (some p.2) linkOk rels), herr, he1]

theorem create_records_getElem (modelName : String) (cfg : List RelFieldCfg)
    (linkOk : Nat → Nat → Bool) (now : Nat)
    (insts : List ExpInst) (respIds : List Nat)
    (hlen : respIds.length = insts.length) :
    ((create_records modelName cfg linkOk now insts respIds).1).length = insts.length ∧
    ∀ (k : Nat) (hk : k < insts.length) (hkr : k < respIds.length)
      (hk2 : k < ((create_records modelName cfg linkOk now insts respIds).1).length),
      ((create_records modelName cfg linkOk now insts respIds).1)[k] =
        (createOne modelName cfg linkOk now (insts[k], respIds[k])).1 := by
  constructor
  · unfold create_records
    rw [if_neg (by rw [hlen]; exact fun h => h rfl)]
    simp [List.length_zip, hlen]
  · intro k hk hkr hk2
    unfold create_records
    simp only [if_neg (show ¬ respIds.length ≠ insts.length from fun h => h hlen),
      List.getElem_map, List.getElem_zip]

/-- C2: with a well-formed batch response, every created instance has its
returned `external_id` persisted immediately; an instance whose changed
relations resolve but contain a failing link call contributes exactly one
tracked failed-link entry (naming model, field, record and target), keeps
its persisted `external_id` (the create is not rolled back), keeps its
sync state untouched, and is not marked synced. -/
theorem C2_link_failure_isolation (modelName : String) (cfg : List RelFieldCfg)
    (linkOk : Nat → Nat → Bool) (now : Nat)
    (insts : List ExpInst) (respIds : List Nat) (k : Nat)
    (hlen : respIds.length = insts.length) (hk : k < insts.length)
    (hkr : k < respIds.length)
    (rels : List (Nat × Nat))
    (hrels : get_changed_relations
        { insts[k] with external_id := some respIds[k] } cfg
        = Except.ok rels)
    (hfail : ∃ r ∈ rels, linkOk r.1 r.2 = false)
    (hunsynced : (insts[k]).sync.is_synced = false) :
    (create_records modelName cfg linkOk now insts respIds).2.2 = Option.none ∧
    (∀ (j : Nat) (hj : j < insts.length) (hjr : j < respIds.length),
      ∃ hj2 : j < ((create_records modelName cfg linkOk now insts respIds).1).length,
        (((create_records modelName cfg linkOk now insts respIds).1)[j]).external_id
          = some respIds[j]) ∧
    ∃ hk2 : k < ((create_records modelName cfg linkOk now insts respIds).1).length,
      (((create_records modelName cfg linkOk now insts respIds).1)[k]).external_id
        = some respIds[k] ∧
      (((create_records modelName cfg linkOk now insts respIds).1)[k]).sync
        = (insts[k]).sync ∧
      (((create_records modelName cfg linkOk now insts respIds).1)[k]).sync.is_synced
        = false ∧
      ∃ e : FailedLink,
        (createOne modelName cfg linkOk now (insts[k], respIds[k])).2 = [e] ∧
        e ∈ (create_records modelName cfg linkOk now insts respIds).2.1 ∧
        e.model = modelName ∧
        e.record_id = some respIds[k] ∧
        (e.field_id, e.rel_instance_id) ∈ rels ∧
        linkOk e.field_id e.rel_instance_id = false := by
  have hne : ¬ respIds.length ≠ insts.length := fun h => h hlen
  have hget := create_records_getElem modelName cfg linkOk now insts respIds hlen
  have hlen1 := hget.1
  refine ⟨?_, ?_, ?_⟩
  · unfold create_records
    rw [if_neg hne]
  · intro j hj hjr
    have hj2 : j < ((create_records modelName cfg linkOk now insts respIds).1).length := by
      rw [hlen1]
      exact hj
    refine ⟨hj2, ?_⟩
    rw [hget.2 j hj hjr hj2]
    exact createOne_external_id modelName cfg linkOk now _
  · have hk2 : k < ((create_records modelName cfg linkOk now insts respIds).1).length := by
      rw [hlen1]
      exact hk
    refine ⟨hk2, ?_⟩
    obtain ⟨e, he1, he3, he4, he5, he6⟩ := createOne_link_failure modelName cfg linkOk now
      (insts[k], respIds[k]) rels hrels hfail
    have hgetk := hget.2 k hk hkr hk2
    refine ⟨?_, ?_, ?_, e, ?_, ?_, he3, he4, he5, he6⟩
    · rw [hgetk]
      exact createOne_external_id modelName cfg linkOk now _
    · rw [hgetk, he1]
    · rw [hgetk, he1]
      exact hunsynced
    · rw [he1]
    · unfold create_records
      rw [if_neg hne]
      have hzlen : k < (insts.zip respIds).length := by
        rw [List.length_zip, hlen, Nat.min_self]
        exact hk
      refine List.mem_flatten.mpr ⟨[e], ?_, List.mem_singleton.mpr rfl⟩
      rw [List.map_map]
      refine List.mem_map.mpr ⟨(insts.zip respIds)[k], List.getElem_mem _, ?_⟩
      have hk3 : (insts.zip respIds)[k] = (insts[k], respIds[k]) := List.getElem_zip
      rw [Function.comp_apply, hk3, he1]

/-- Concrete link-failure scenario: one never-synced affiliation created
with ID 42 whose single person link call fails. -/
def c2Inst : ExpInst :=
  ⟨1, Option.none, ⟨0, Option.none⟩,
   fun f => if f = "person" then some ⟨70, some 101⟩ else Option.none,
   fun _ => Option.none⟩

/-- Concrete instantiation of link-failure isolation: the batch succeeds,
`external_id = 42` is persisted, the sync state is untouched, and exactly
one failed-link entry (model, field 123, record 42, target 101) is
tracked. -/
theorem C2_link_failure_isolation_witness :
    (create_records "Affiliation" [⟨"person", 123⟩] (fun _ _ => false) 9
        [c2Inst] [42]).2.2 = Option.none ∧
    ∃ hk2 : 0 < ((create_records "Affiliation" [⟨"person", 123⟩] (fun _ _ => false) 9
        [c2Inst] [42]).1).length,
      (((create_records "Affiliation" [⟨"person", 123⟩] (fun _ _ => false) 9
          [c2Inst] [42]).1)[0]).external_id = some 42 ∧
      (((create_records "Affiliation" [⟨"person", 123⟩] (fun _ _ => false) 9
          [c2Inst] [42]).1)[0]).sync = c2Inst.sync ∧
      (((create_records "Affiliation" [⟨"person", 123⟩] (fun _ _ => false) 9
          [c2Inst] [42]).1)[0]).sync.is_synced = false ∧
      ∃ e : FailedLink,
        (createOne "Affiliation" [⟨"person", 123⟩] (fun _ _ => false) 9
          (c2Inst, 42)).2 = [e] ∧
        e ∈ (create_records "Affiliation" [⟨"person", 123⟩] (fun _ _ => false) 9
          [c2Inst] [42]).2.1 ∧
        e.model = "Affiliation" ∧
        e.record_id = some 42 ∧
        (e.field_id, e.rel_instance_id) ∈ [(123, 101)] ∧
        (fun _ _ => false : Nat → Nat → Bool) e.field_id e.rel_instance_id = false := by
  have h := C2_link_failure_isolation "Affiliation" [⟨"person", 123⟩]
    (fun _ _ => false) 9 [c2Inst] [42] 0 rfl (by decide) (by decide) [(123, 101)]
    (by rfl) ⟨(123, 101), List.mem_singleton.mpr rfl, rfl⟩ (by rfl)
  exact ⟨h.1, h.2.2⟩

/-! ## `TableImporter` pull pipeline (importer.py)

Embedding of `get_obj_data` / `create_or_update_main_instances` /
`create_or_update_instance` / `process_relations` / `get_related_instances`
/ `delete_instances` for one model with one foreign-key relation field and
one many-to-many relation field.  Remote rows are taken after field-map
application and `prepare_row` (both configuration-dependent); saves always
succeed (database failures are not modelled). -/

/-- A local instance of the imported model: primary key, `external_id`,
scalar fields, the foreign-key column, and the many-to-many set. -/
structure ImpInst where
  pk : Nat
  external_id : Nat
  fields : List (String × PyValue)
  fk_id : Option Nat
  m2m_ids : List Nat
deriving DecidableEq, Repr

/-- A mapped remote row: `external_id`, scalar (init) fields, the raw
foreign-key lookup value, and the raw many-to-many lookup values. -/
structure ImpRow where
  external_id : Nat
  fields : List (String × PyValue)
  fkRaw : Option String
  m2mRaw : List String
deriving DecidableEq, Repr

/-- An entry of a related lookup table: primary key and lookup value. -/
structure RelEntry where
  pk : Nat
  value : String
deriving DecidableEq, Repr

/-- The database state seen by one `TableImporter`: the model's instances,
the two related tables, and the next fresh primary key. -/
structure ImpState where
  insts : List ImpInst
  relFk : List RelEntry
  relM2m : List RelEntry
  nextPk : Nat
deriving Repr

/-- The created/updated/deleted counters of `ImportStats`. -/
structure ImpStats where
  created : Nat
  updated : Nat
  deleted : Nat
deriving DecidableEq, Repr

/-- Django `getattr` on the scalar fields (a field absent from the list
reads as `None`). -/
def getFieldD (fs : List (String × PyValue)) (k : String) : PyValue :=
  match fs.find? (fun p => p.1 == k) with
  | some p => p.2
  | Option.none => PyValue.vNone

/-- The `obj_data` dictionary of `get_obj_data`: rows keyed by
`external_id`, later rows overwriting earlier ones. -/
def buildObjData (rows : List ImpRow) : List (Nat × ImpRow) :=
  rows.foldl (fun acc row => upsert acc row.external_id row) []

/-- Python `set.add` preserving first-insertion order. -/
def addValue (xs : List String) (v : String) : List String :=
  if v ∈ xs then xs else xs ++ [v]

/-- The relation-value collection of `get_obj_data`: a truthy foreign-key
raw value other than the null label is collected; many-to-many raw values
are collected with the null label filtered out. -/
def collectRelValues (nullLabel : String) (rows : List ImpRow) :
    List String × List String :=
  rows.foldl
    (fun acc row =>
      let fkAcc := match row.fkRaw with
        | some v => if v ≠ "" ∧ v ≠ nullLabel then addValue acc.1 v else acc.1
        | Option.none => acc.1
      let m2mAcc := (row.m2mRaw.filter (fun v => v != nullLabel)).foldl addValue acc.2
      (fkAcc, m2mAcc))
    ([], [])

/-- Embedding of `TableImporter.get_related_instances`: the collected
values are looked up in the related table in one query; missing values
are bulk-created with fresh primary keys when `create_if_missing` is
configured, otherwise the import aborts (`handle_error` raises outside
debug mode). -/
def get_related_instances (table : List RelEntry) (values : List String)
    (create : Bool) (nextPk : Nat) :
    Except String (List RelEntry × Nat) :=
  let missing := values.filter (fun v => !(table.any (fun e => e.value == v)))
  if missing = [] then Except.ok (table, nextPk)
  else if create then
    Except.ok
      (table ++ ((List.range missing.length).zip missing).map
        (fun p => ⟨nextPk + p.1, p.2⟩),
       nextPk + missing.length)
  else Except.error "missing values for related model"

/-- The relation cache built by `build_related_cache` (`in_bulk(values)`):
only collected values resolve, to the primary key found in the related
table. -/
def cacheLookup (table : List RelEntry) (values : List String) (v : String) :
    Option Nat :=
  if v ∈ values then (table.find? (fun e => e.value == v)).map RelEntry.pk
  else Option.none

/-- One iteration of the field-update loop of
`create_or_update_instance`: a field whose current value differs from the
row's is overwritten (`setattr`), setting the update flag. -/
def impFieldStep (acc : List (String × PyValue) × Bool)
    (fv : String × PyValue) : List (String × PyValue) × Bool :=
  if getFieldD acc.1 fv.1 ≠ fv.2 then (upsert acc.1 fv.1 fv.2, true) else acc

/-- The field-update loop of `create_or_update_instance`. -/
def imp_update_fields (fields rowFields : List (String × PyValue)) :
    List (String × PyValue) × Bool :=
  rowFields.foldl impFieldStep (fields, false)

/-- Embedding of `TableImporter.create_or_update_instance`: an existing
instance runs the field-update loop (a save tracked as "updated" when the
flag is set); a missing one is constructed from the row's fields with a
fresh primary key (a save tracked as "created").  Returns the instance,
the next fresh primary key, the created flag, and the updated flag. -/
def imp_create_or_update (obj? : Option ImpInst) (extId : Nat)
    (rowFields : List (String × PyValue)) (nextPk : Nat) :
    ImpInst × Nat × Bool × Bool :=
  match obj? with
  | some obj =>
    ({ obj with fields := (imp_update_fields obj.fields rowFields).1 }, nextPk,
      false, (imp_update_fields obj.fields rowFields).2)
  | Option.none =>
    ({ pk := nextPk, external_id := extId, fields := rowFields,
       fk_id := Option.none, m2m_ids := [] }, nextPk + 1, true, false)

/-- Resolution of the foreign-key raw value through the cache
(`related_cache[rel_field].get(raw)`). -/
def imp_resolve_fk (row : ImpRow) (cacheFk : String → Option Nat) : Option Nat :=
  match row.fkRaw with
  | some v => cacheFk v
  | Option.none => Option.none

/-- The foreign-key branch of `process_relations`: swap the stored ID (a
tracked update) when it differs from the resolved one. -/
def imp_fk_step (obj : ImpInst) (row : ImpRow) (cacheFk : String → Option Nat) :
    ImpInst × Nat :=
  if obj.fk_id ≠ imp_resolve_fk row cacheFk then
    ({ obj with fk_id := imp_resolve_fk row cacheFk }, 1)
  else (obj, 0)

/-- The many-to-many branch of `process_relations`: a truthy raw value
resolves to the related primary keys (values missing from the cache are
dropped) and is set-replaced (a tracked update) when the resolved ID set
differs from the current one. -/
def imp_m2m_step (obj : ImpInst) (row : ImpRow) (cacheM2m : String → Option Nat) :
    ImpInst × Nat :=
  if row.m2mRaw ≠ [] then
    if (row.m2mRaw.filterMap cacheM2m).toFinset ≠ obj.m2m_ids.toFinset then
      ({ obj with m2m_ids := row.m2mRaw.filterMap cacheM2m }, 1)
    else (obj, 0)
  else (obj, 0)

/-- Embedding of `TableImporter.process_relations`: the foreign-key branch
followed by the many-to-many branch; returns the instance and the number
of tracked updates. -/
def imp_process_relations (obj : ImpInst) (row : ImpRow)
    (cacheFk cacheM2m : String → Option Nat) : ImpInst × Nat :=
  ((imp_m2m_step (imp_fk_step obj row cacheFk).1 row cacheM2m).1,
   (imp_fk_step obj row cacheFk).2 +
     (imp_m2m_step (imp_fk_step obj row cacheFk).1 row cacheM2m).2)

/-- The ORM save persisting an instance: the row with the same primary key
is replaced, a new row is inserted. -/
def storeInst (insts : List ImpInst) (obj : ImpInst) : List ImpInst :=
  if insts.any (fun i => i.pk == obj.pk) then
    insts.map (fun i => if i.pk == obj.pk then obj else i)
  else insts ++ [obj]

/-- One iteration of the instance loop of
`create_or_update_main_instances`: the existing instance is looked up by
`external_id` in the `in_bulk` snapshot taken before the loop, created or
updated, its relations processed, the result saved, and the stats
accumulated. -/
def impStep (existing : List ImpInst) (cacheFk cacheM2m : String → Option Nat)
    (acc : List ImpInst × Nat × ImpStats) (entry : Nat × ImpRow) :
    List ImpInst × Nat × ImpStats :=
  let obj? := existing.find? (fun i => i.external_id == entry.1)
  let r1 := imp_create_or_update obj? entry.1 entry.2.fields acc.2.1
  let r2 := imp_process_relations r1.1 entry.2 cacheFk cacheM2m
  (storeInst acc.1 r2.1, r1.2.1,
   { created := acc.2.2.created + (if r1.2.2.1 then 1 else 0),
     updated := acc.2.2.updated + (if r1.2.2.2 then 1 else 0) + r2.2,
     deleted := acc.2.2.deleted })

/-- Embedding of one `TableImporter.run` (for one model): build `obj_data`
and the relation caches, create or update every fetched instance, process
its relations, and finally hard-delete every local instance whose
`external_id` is not among the fetched keys (`delete_instances`). -/
def imp_run (nullLabel : String) (createFk createM2m : Bool)
    (st : ImpState) (rows : List ImpRow) :
    Except String (ImpState × ImpStats) :=
  let objData := buildObjData rows
  let vals := collectRelValues nullLabel rows
  match get_related_instances st.relFk vals.1 createFk st.nextPk with
  | Except.error e => Except.error e
  | Except.ok (relFk2, pk2) =>
    match get_related_instances st.relM2m vals.2 createM2m pk2 with
    | Except.error e => Except.error e
    | Except.ok (relM2m2, pk3) =>
      let cacheFk := cacheLookup relFk2 vals.1
      let cacheM2m := cacheLookup relM2m2 vals.2
      let r := objData.foldl (impStep st.insts cacheFk cacheM2m)
        (st.insts, pk3, ⟨0, 0, 0⟩)
      let newIds := objData.map Prod.fst
      let toDelete :=
        ((st.insts.map ImpInst.external_id).filter
          (fun e => decide (e ∉ newIds))).dedup
      let final := r.1.filter (fun i => decide (i.external_id ∉ toDelete))
      let stats := if toDelete ≠ [] then
          { r.2.2 with deleted := r.2.2.deleted + toDelete.length }
        else r.2.2
      Except.ok (⟨final, relFk2, relM2m2, r.2.1⟩, stats)


/-! ### Dictionary and store lemmas -/

theorem keys_upsert {α β : Type} [DecidableEq α] (xs : List (α × β)) (k : α) (v : β) :
    (upsert xs k v).map Prod.fst =
      if xs.any (fun p => p.1 == k) then xs.map Prod.fst
      else xs.map Prod.fst ++ [k] := by
  unfold upsert
  by_cases h : xs.any (fun p => p.1 == k) = true
  · rw [if_pos h, if_pos h, List.map_map]
    refine List.map_congr_left ?_
    intro p _
    by_cases hk : p.1 = k
    · simp [hk]
    · simp [hk]
  · rw [if_neg h, if_neg h, List.map_append]
    rfl

theorem mem_keys_upsert {α β : Type} [DecidableEq α] (xs : List (α × β)) (key : α)
    (v : β) (k : α) :
    k ∈ (upsert xs key v).map Prod.fst ↔ k ∈ xs.map Prod.fst ∨ k = key := by
  rw [keys_upsert]
  by_cases h : xs.any (fun p => p.1 == key) = true
  · rw [if_pos h]
    constructor
    · exact Or.inl
    · rintro (hk | rfl)
      · exact hk
      · obtain ⟨p, hp, hpk⟩ := List.any_eq_true.mp h
        exact List.mem_map.mpr ⟨p, hp, beq_iff_eq.mp hpk⟩
  · rw [if_neg h]
    simp

theorem buildObjData_keys (rows : List ImpRow) (k : Nat) :
    k ∈ (buildObjData rows).map Prod.fst ↔ k ∈ rows.map ImpRow.external_id := by
  suffices h : ∀ acc : List (Nat × ImpRow),
      (k ∈ (rows.foldl (fun a row => upsert a row.external_id row) acc).map Prod.fst ↔
        k ∈ acc.map Prod.fst ∨ k ∈ rows.map ImpRow.external_id) by
    simpa [buildObjData] using h []
  induction rows with
  | nil => intro acc; simp
  | cons row rest ih =>
    intro acc
    rw [List.foldl_cons, ih (upsert acc row.external_id row)]
    simp only [mem_keys_upsert, List.map_cons, List.mem_cons]
    tauto

theorem mem_buildObjData_aux (rows : List ImpRow) :
    ∀ (acc : List (Nat × ImpRow)) (e : Nat × ImpRow),
      e ∈ rows.foldl (fun a row => upsert a row.external_id row) acc →
      e ∈ acc ∨ (e.2 ∈ rows ∧ e.1 = e.2.external_id) := by
  induction rows with
  | nil => intro acc e he; exact Or.inl he
  | cons row rest ih =>
    intro acc e he
    rw [List.foldl_cons] at he
    rcases ih _ e he with hacc | hrest
    · rcases mem_upsert _ _ _ _ hacc with h | h
      · exact Or.inl h
      · right
        rw [h]
        exact ⟨List.mem_cons_self _ _, rfl⟩
    · exact Or.inr ⟨List.mem_cons_of_mem _ hrest.1, hrest.2⟩

theorem mem_buildObjData (rows : List ImpRow) (e : Nat × ImpRow)
    (he : e ∈ buildObjData rows) : e.2 ∈ rows ∧ e.1 = e.2.external_id := by
  rcases mem_buildObjData_aux rows [] e he with h | h
  · cases h
  · exact h

theorem nodup_map_pk_inj (insts : List ImpInst)
    (hpk : (insts.map ImpInst.pk).Nodup) (a b : ImpInst)
    (ha : a ∈ insts) (hb : b ∈ insts) (hab : a.pk = b.pk) : a = b := by
  induction insts with
  | nil => cases ha
  | cons x rest ih =>
    rw [List.map_cons, List.nodup_cons] at hpk
    rcases List.mem_cons.mp ha with rfl | ha2 <;>
      rcases List.mem_cons.mp hb with rfl | hb2
    · rfl
    · exact absurd (hab ▸ List.mem_map_of_mem ImpInst.pk hb2) hpk.1
    · exact absurd (hab ▸ List.mem_map_of_mem ImpInst.pk ha2) (by
        intro hc
        exact hpk.1 (hab ▸ hc))
    · exact ih hpk.2 ha2 hb2

theorem storeInst_mem_obj (insts : List ImpInst) (obj : ImpInst) :
    obj ∈ storeInst insts obj := by
  unfold storeInst
  by_cases h : insts.any (fun i => i.pk == obj.pk) = true
  · rw [if_pos h]
    obtain ⟨p, hp, hpk⟩ := List.any_eq_true.mp h
    exact List.mem_map.mpr ⟨p, hp, by rw [if_pos hpk]⟩
  · rw [if_neg h]
    exact List.mem_append_right _ (List.mem_singleton.mpr rfl)

theorem storeInst_mem_ne (insts : List ImpInst) (obj inst : ImpInst)
    (hmem : inst ∈ insts) (hne : inst.pk ≠ obj.pk) :
    inst ∈ storeInst insts obj := by
  unfold storeInst
  by_cases h : insts.any (fun i => i.pk == obj.pk) = true
  · rw [if_pos h]
    refine List.mem_map.mpr ⟨inst, hmem, ?_⟩
    rw [if_neg (by simpa using hne)]
  · rw [if_neg h]
    exact List.mem_append_left _ hmem

theorem storeInst_mem_elim (insts : List ImpInst) (obj j : ImpInst)
    (hj : j ∈ storeInst insts obj) :
    j = obj ∨ (j ∈ insts ∧ j.pk ≠ obj.pk) := by
  unfold storeInst at hj
  by_cases h : insts.any (fun i => i.pk == obj.pk) = true
  · rw [if_pos h] at hj
    obtain ⟨p, hp, hpe⟩ := List.mem_map.mp hj
    by_cases hpk : (p.pk == obj.pk) = true
    · rw [if_pos hpk] at hpe
      exact Or.inl hpe.symm
    · rw [if_neg hpk] at hpe
      right
      refine ⟨hpe ▸ hp, ?_⟩
      rw [← hpe]
      simpa using hpk
  · rw [if_neg h] at hj
    rcases List.mem_append.mp hj with hm | hm
    · right
      refine ⟨hm, fun hc => ?_⟩
      exact h (List.any_eq_true.mpr ⟨j, hm, by simpa using hc⟩)
    · exact Or.inl (List.mem_singleton.mp hm)

theorem storeInst_map_pk (insts : List ImpInst) (obj : ImpInst) :
    (storeInst insts obj).map ImpInst.pk =
      if insts.any (fun i => i.pk == obj.pk) then insts.map ImpInst.pk
      else insts.map ImpInst.pk ++ [obj.pk] := by
  unfold storeInst
  by_cases h : insts.any (fun i => i.pk == obj.pk) = true
  · rw [if_pos h, if_pos h, List.map_map]
    refine List.map_congr_left ?_
    intro p _
    by_cases hpk : (p.pk == obj.pk) = true
    · simp only [Function.comp_apply, if_pos hpk]
      exact (beq_iff_eq.mp hpk).symm
    · simp only [Function.comp_apply, if_neg hpk]
  · rw [if_neg h, if_neg h, List.map_append]
    rfl

theorem storeInst_self (insts : List ImpInst) (j : ImpInst) (hj : j ∈ insts)
    (hpk : (insts.map ImpInst.pk).Nodup) : storeInst insts j = insts := by
  unfold storeInst
  rw [if_pos (List.any_eq_true.mpr ⟨j, hj, by simp⟩)]
  have hcongr : ∀ i ∈ insts, (if i.pk == j.pk then j else i) = i := by
    intro i hi
    by_cases hpk2 : (i.pk == j.pk) = true
    · rw [if_pos hpk2]
      exact (nodup_map_pk_inj insts hpk i j hi hj (beq_iff_eq.mp hpk2)).symm
    · rw [if_neg hpk2]
  rw [List.map_congr_left hcongr]
  exact List.map_id' insts

/-! ### Step and fold invariants of the instance loop -/

theorem imp_fk_step_same (obj : ImpInst) (row : ImpRow) (cF : String → Option Nat) :
    (imp_fk_step obj row cF).1.pk = obj.pk ∧
    (imp_fk_step obj row cF).1.external_id = obj.external_id ∧
    (imp_fk_step obj row cF).1.fields = obj.fields ∧
    (imp_fk_step obj row cF).1.m2m_ids = obj.m2m_ids := by
  unfold imp_fk_step
  split <;> exact ⟨rfl, rfl, rfl, rfl⟩

theorem imp_m2m_step_same (obj : ImpInst) (row : ImpRow) (cM : String → Option Nat) :
    (imp_m2m_step obj row cM).1.pk = obj.pk ∧
    (imp_m2m_step obj row cM).1.external_id = obj.external_id ∧
    (imp_m2m_step obj row cM).1.fields = obj.fields ∧
    (imp_m2m_step obj row cM).1.fk_id = obj.fk_id := by
  unfold imp_m2m_step
  split
  · split <;> exact ⟨rfl, rfl, rfl, rfl⟩
  · exact ⟨rfl, rfl, rfl, rfl⟩

theorem imp_process_relations_same (obj : ImpInst) (row : ImpRow)
    (cF cM : String → Option Nat) :
    (imp_process_relations obj row cF cM).1.pk = obj.pk ∧
    (imp_process_relations obj row cF cM).1.external_id = obj.external_id := by
  unfold imp_process_relations
  exact ⟨(imp_m2m_step_same _ _ _).1.trans (imp_fk_step_same _ _ _).1,
    (imp_m2m_step_same _ _ _).2.1.trans (imp_fk_step_same _ _ _).2.1⟩

theorem impStep_tracks (existing : List ImpInst) (cF cM : String → Option Nat)
    (live : List ImpInst) (npk : Nat) (stats : ImpStats) (entry : Nat × ImpRow)
    (hpk : (live.map ImpInst.pk).Nodup)
    (hexpk : (existing.map ImpInst.pk).Nodup)
    (hfresh : ∀ i ∈ live, i.pk < npk)
    (hexfresh : ∀ i ∈ existing, i.pk < npk)
    (hcons : ∀ j ∈ live, ∀ i ∈ existing, j.pk = i.pk → j.external_id = i.external_id) :
    (((impStep existing cF cM (live, npk, stats) entry).1.map ImpInst.pk).Nodup ∧
     (∀ i ∈ (impStep existing cF cM (live, npk, stats) entry).1,
        i.pk < (impStep existing cF cM (live, npk, stats) entry).2.1) ∧
     (∀ i ∈ existing, i.pk < (impStep existing cF cM (live, npk, stats) entry).2.1) ∧
     (∀ j ∈ (impStep existing cF cM (live, npk, stats) entry).1, ∀ i ∈ existing,
        j.pk = i.pk → j.external_id = i.external_id) ∧
     (∀ inst ∈ live, ∃ j ∈ (impStep existing cF cM (live, npk, stats) entry).1,
        j.pk = inst.pk ∧ j.external_id = inst.external_id)) := by
  simp only [impStep]
  cases hfind : existing.find? (fun i => i.external_id == entry.1) with
  | none =>
    simp only [hfind, imp_create_or_update]
    have hpk2 : (imp_process_relations
        { pk := npk, external_id := entry.1, fields := entry.2.fields,
          fk_id := Option.none, m2m_ids := [] } entry.2 cF cM).1.pk = npk :=
      (imp_process_relations_same _ _ _ _).1
    have hext2 : (imp_process_relations
        { pk := npk, external_id := entry.1, fields := entry.2.fields,
          fk_id := Option.none, m2m_ids := [] } entry.2 cF cM).1.external_id
        = entry.1 :=
      (imp_process_relations_same _ _ _ _).2
    generalize hobj2 : (imp_process_relations
        { pk := npk, external_id := entry.1, fields := entry.2.fields,
          fk_id := Option.none, m2m_ids := [] } entry.2 cF cM).1 = obj2 at hpk2 hext2 ⊢
    have hnotin : ¬ (live.any (fun i => i.pk == obj2.pk)) = true := by
      intro hc
      obtain ⟨p, hp, hpe⟩ := List.any_eq_true.mp hc
      have hlt := hfresh p hp
      rw [beq_iff_eq.mp hpe, hpk2] at hlt
      exact Nat.lt_irrefl _ hlt
    have hstore : storeInst live obj2 = live ++ [obj2] := by
      unfold storeInst
      rw [if_neg hnotin]
    refine ⟨?_, ?_, ?_, ?_, ?_⟩
    · rw [hstore, List.map_append]
      simp only [List.nodup_append, List.map_cons, List.map_nil]
      refine ⟨hpk, List.nodup_singleton _, ?_⟩
      intro a ha hb
      rw [List.mem_singleton.mp hb] at ha
      obtain ⟨p, hp, hpe⟩ := List.mem_map.mp ha
      have hlt := hfresh p hp
      rw [hpe, hpk2] at hlt
      exact Nat.lt_irrefl _ hlt
    · intro i hi
      rw [hstore] at hi
      rcases List.mem_append.mp hi with hm | hm
      · exact Nat.lt_succ_of_lt (hfresh i hm)
      · rw [List.mem_singleton.mp hm, hpk2]
        exact Nat.lt_succ_self _
    · intro i hi
      exact Nat.lt_succ_of_lt (hexfresh i hi)
    · intro j hj i hi hpki
      rw [hstore] at hj
      rcases List.mem_append.mp hj with hm | hm
      · exact hcons j hm i hi hpki
      · rw [List.mem_singleton.mp hm] at hpki ⊢
        rw [hpk2] at hpki
        exact absurd (hpki ▸ hexfresh i hi) (Nat.lt_irrefl _)
    · intro inst hinst
      refine ⟨inst, ?_, rfl, rfl⟩
      rw [hstore]
      exact List.mem_append_left _ hinst
  | some obj =>
    have hobjmem : obj ∈ existing := List.mem_of_find?_eq_some hfind
    simp only [hfind, imp_create_or_update]
    have hpk2 : (imp_process_relations
        { obj with fields := (imp_update_fields obj.fields entry.2.fields).1 }
        entry.2 cF cM).1.pk = obj.pk :=
      (imp_process_relations_same _ _ _ _).1
    have hext2 : (imp_process_relations
        { obj with fields := (imp_update_fields obj.fields entry.2.fields).1 }
        entry.2 cF cM).1.external_id = obj.external_id :=
      (imp_process_relations_same _ _ _ _).2
    generalize hobj2 : (imp_process_relations
        { obj with fields := (imp_update_fields obj.fields entry.2.fields).1 }
        entry.2 cF cM).1 = obj2 at hpk2 hext2 ⊢
    refine ⟨?_, ?_, ?_, ?_, ?_⟩
    · rw [storeInst_map_pk]
      split
      · exact hpk
      · rename_i hnoany
        simp only [List.nodup_append, List.map_cons, List.map_nil]
        refine ⟨hpk, List.nodup_singleton _, ?_⟩
        intro a ha hb
        rw [List.mem_singleton.mp hb] at ha
        obtain ⟨p, hp, hpe⟩ := List.mem_map.mp ha
        exact hnoany (List.any_eq_true.mpr ⟨p, hp, by rw [hpe]; simp⟩)
    · intro i hi
      rcases storeInst_mem_elim live obj2 i hi with rfl | ⟨hm, _⟩
      · rw [hpk2]
        exact hexfresh obj hobjmem
      · exact hfresh i hm
    · intro i hi
      exact hexfresh i hi
    · intro j hj i hi hpki
      rcases storeInst_mem_elim live obj2 j hj with rfl | ⟨hm, _⟩
      · rw [hext2]
        rw [hpk2] at hpki
        rw [nodup_map_pk_inj existing hexpk obj i hobjmem hi hpki]
      · exact hcons j hm i hi hpki
    · intro inst hinst
      by_cases hpkeq : inst.pk = obj2.pk
      · refine ⟨obj2, storeInst_mem_obj _ _, hpkeq.symm, ?_⟩
        rw [hext2]
        exact (hcons inst hinst obj hobjmem (hpkeq.trans hpk2)).symm
      · exact ⟨inst, storeInst_mem_ne _ _ _ hinst hpkeq, rfl, rfl⟩

theorem impFold_tracks (existing : List ImpInst) (cF cM : String → Option Nat)
    (objData : List (Nat × ImpRow)) :
    ∀ (live : List ImpInst) (npk : Nat) (stats : ImpStats),
      (live.map ImpInst.pk).Nodup →
      (existing.map ImpInst.pk).Nodup →
      (∀ i ∈ live, i.pk < npk) →
      (∀ i ∈ existing, i.pk < npk) →
      (∀ j ∈ live, ∀ i ∈ existing, j.pk = i.pk → j.external_id = i.external_id) →
      (((objData.foldl (impStep existing cF cM) (live, npk, stats)).1.map
          ImpInst.pk).Nodup ∧
       (∀ j ∈ (objData.foldl (impStep existing cF cM) (live, npk, stats)).1,
          ∀ i ∈ existing, j.pk = i.pk → j.external_id = i.external_id) ∧
       (∀ inst ∈ live,
          ∃ j ∈ (objData.foldl (impStep existing cF cM) (live, npk, stats)).1,
            j.pk = inst.pk ∧ j.external_id = inst.external_id)) := by
  induction objData with
  | nil =>
    intro live npk stats h1 h2 _ _ h5
    exact ⟨h1, h5, fun inst hi => ⟨inst, hi, rfl, rfl⟩⟩
  | cons entry rest ih =>
    intro live npk stats h1 h2 h3 h4 h5
    obtain ⟨s1, s2, s3, s4, s5⟩ :=
      impStep_tracks existing cF cM live npk stats entry h1 h2 h3 h4 h5
    obtain ⟨f1, f4, f5⟩ :=
      ih (impStep existing cF cM (live, npk, stats) entry).1
        (impStep existing cF cM (live, npk, stats) entry).2.1
        (impStep existing cF cM (live, npk, stats) entry).2.2
        s1 h2 s2 s3 s4
    refine ⟨f1, f4, ?_⟩
    intro inst hinst
    obtain ⟨j1, hj1, hjpk, hjext⟩ := s5 inst hinst
    obtain ⟨j2, hj2, hj2pk, hj2ext⟩ := f5 j1 hj1
    exact ⟨j2, hj2, hj2pk.trans hjpk, hj2ext.trans hjext⟩

theorem get_related_pk_le (table : List RelEntry) (values : List String)
    (create : Bool) (nextPk : Nat) (t2 : List RelEntry) (pk2 : Nat)
    (hok : get_related_instances table values create nextPk = Except.ok (t2, pk2)) :
    nextPk ≤ pk2 := by
  simp only [get_related_instances] at hok
  split at hok
  · rw [Except.ok.injEq, Prod.mk.injEq] at hok
    rw [← hok.2]
  · split at hok
    · rw [Except.ok.injEq, Prod.mk.injEq] at hok
      rw [← hok.2]
      exact Nat.le_add_right _ _
    · cases hok

/-- C4: after a successful pull run, every pre-existing local instance
whose `external_id` is not among the fetched rows' external IDs is
hard-deleted (no instance with that external ID remains), and every
pre-existing instance whose `external_id` appears in the fetched set is
retained as the same database row (same primary key). -/
theorem C4_full_pull_authoritative_existence
    (nullLabel : String) (createFk createM2m : Bool)
    (st : ImpState) (rows : List ImpRow) (st2 : ImpState) (stats : ImpStats)
    (hok : imp_run nullLabel createFk createM2m st rows = Except.ok (st2, stats))
    (hpk : (st.insts.map ImpInst.pk).Nodup)
    (hfresh : ∀ i ∈ st.insts, i.pk < st.nextPk)
    (inst : ImpInst) (hmem : inst ∈ st.insts) :
    (inst.external_id ∉ rows.map ImpRow.external_id →
      ∀ j ∈ st2.insts, j.external_id ≠ inst.external_id) ∧
    (inst.external_id ∈ rows.map ImpRow.external_id →
      ∃ j ∈ st2.insts, j.pk = inst.pk ∧ j.external_id = inst.external_id) := by
  simp only [imp_run] at hok
  rcases hfk : get_related_instances st.relFk (collectRelValues nullLabel rows).1
      createFk st.nextPk with e | ⟨relFk2, pk2⟩
  · simp only [hfk] at hok
    exact Except.noConfusion hok
  simp only [hfk] at hok
  rcases hm2m : get_related_instances st.relM2m (collectRelValues nullLabel rows).2
      createM2m pk2 with e | ⟨relM2m2, pk3⟩
  · simp only [hm2m] at hok
    exact Except.noConfusion hok
  simp only [hm2m] at hok
  rw [Except.ok.injEq, Prod.mk.injEq] at hok
  obtain ⟨hst2, _⟩ := hok
  have hpk3 : st.nextPk ≤ pk3 :=
    Nat.le_trans (get_related_pk_le _ _ _ _ _ _ hfk)
      (get_related_pk_le _ _ _ _ _ _ hm2m)
  have hconsinit : ∀ j ∈ st.insts, ∀ i ∈ st.insts,
      j.pk = i.pk → j.external_id = i.external_id := by
    intro j hj i hi hpki
    rw [nodup_map_pk_inj st.insts hpk j i hj hi hpki]
  obtain ⟨_, _, ftrack⟩ :=
    impFold_tracks st.insts (cacheLookup relFk2 (collectRelValues nullLabel rows).1)
      (cacheLookup relM2m2 (collectRelValues nullLabel rows).2)
      (buildObjData rows) st.insts pk3 ⟨0, 0, 0⟩ hpk hpk
      (fun i hi => Nat.lt_of_lt_of_le (hfresh i hi) hpk3)
      (fun i hi => Nat.lt_of_lt_of_le (hfresh i hi) hpk3)
      hconsinit
  have hinsts : st2.insts =
      ((buildObjData rows).foldl
        (impStep st.insts (cacheLookup relFk2 (collectRelValues nullLabel rows).1)
          (cacheLookup relM2m2 (collectRelValues nullLabel rows).2))
        (st.insts, pk3, ⟨0, 0, 0⟩)).1.filter
        (fun i => decide (i.external_id ∉
          ((st.insts.map ImpInst.external_id).filter
            (fun e => decide (e ∉ (buildObjData rows).map Prod.fst))).dedup)) := by
    rw [← hst2]
  constructor
  · intro habsent j hj hc
    rw [hinsts] at hj
    have hkeeps := List.of_mem_filter hj
    rw [decide_eq_true_eq] at hkeeps
    apply hkeeps
    rw [hc]
    rw [List.mem_dedup, List.mem_filter]
    refine ⟨List.mem_map_of_mem ImpInst.external_id hmem, ?_⟩
    rw [decide_eq_true_eq]
    intro hin
    exact habsent ((buildObjData_keys rows inst.external_id).mp hin)
  · intro hpresent
    obtain ⟨j, hj, hjpk, hjext⟩ := ftrack inst hmem
    refine ⟨j, ?_, hjpk, hjext⟩
    rw [hinsts]
    refine List.mem_filter.mpr ⟨hj, ?_⟩
    rw [decide_eq_true_eq]
    intro hdel
    rw [List.mem_dedup, List.mem_filter, decide_eq_true_eq] at hdel
    exact hdel.2 (hjext ▸ (buildObjData_keys rows inst.external_id).mpr hpresent)


/-- Concrete pull scenario for the deletion rule: two local instances,
external IDs 37 and 99; the remote set holds only 37. -/
def c4St : ImpState :=
  ⟨[⟨1, 37, [("name", .vStr "Alt")], Option.none, []⟩,
    ⟨2, 99, [], Option.none, []⟩], [], [], 10⟩

/-- The fetched rows of the scenario: a single row with external ID 37. -/
def c4Rows : List ImpRow := [⟨37, [("name", .vStr "Neu")], Option.none, []⟩]

/-- The state after the pull: instance 99 hard-deleted, instance 37
retained (same primary key) with its field updated. -/
def c4St2 : ImpState :=
  ⟨[⟨1, 37, [("name", .vStr "Neu")], Option.none, []⟩], [], [], 10⟩

/-- Concrete instantiation of the full-pull existence rule: external ID 99
is gone after the run and external ID 37 survives on primary key 1. -/
theorem C4_full_pull_authoritative_existence_witness :
    (∀ j ∈ c4St2.insts, j.external_id ≠ 99) ∧
    (∃ j ∈ c4St2.insts, j.pk = 1 ∧ j.external_id = 37) := by
  have h99 := C4_full_pull_authoritative_existence "NULL" true true c4St c4Rows
    c4St2 ⟨0, 1, 1⟩ rfl (by decide) (by decide) ⟨2, 99, [], Option.none, []⟩
    (by decide)
  have h37 := C4_full_pull_authoritative_existence "NULL" true true c4St c4Rows
    c4St2 ⟨0, 1, 1⟩ rfl (by decide) (by decide)
    ⟨1, 37, [("name", .vStr "Alt")], Option.none, []⟩ (by decide)
  exact ⟨h99.1 (by decide), h37.2 (by decide)⟩

/-! ### Field lookup lemmas for the update loop -/

theorem find?_cons_pos {α : Type} (pred : α → Bool) (a : α) (l : List α)
    (h : pred a = true) : (a :: l).find? pred = some a := by
  simp [List.find?, h]

theorem find?_cons_neg {α : Type} (pred : α → Bool) (a : α) (l : List α)
    (h : pred a = false) : (a :: l).find? pred = l.find? pred := by
  simp [List.find?, h]

theorem find?_map_invariant {α : Type} (g : α → α) (pred : α → Bool) (l : List α)
    (hpred : ∀ p, pred (g p) = pred p) (hfix : ∀ p, pred p = true → g p = p) :
    (l.map g).find? pred = l.find? pred := by
  induction l with
  | nil => rfl
  | cons p rest ih =>
    by_cases hp : pred p = true
    · rw [List.map_cons, find?_cons_pos pred (g p) _ (by rw [hpred]; exact hp),
        find?_cons_pos pred p _ hp, hfix p hp]
    · rw [List.map_cons,
        find?_cons_neg pred (g p) _ (by rw [hpred]; exact Bool.eq_false_iff.mpr hp),
        find?_cons_neg pred p _ (Bool.eq_false_iff.mpr hp), ih]

theorem find?_map_replace (fs : List (String × PyValue)) (k : String) (v : PyValue)
    (h : fs.any (fun p => p.1 == k) = true) :
    (fs.map (fun p => if p.1 == k then (k, v) else p)).find? (fun p => p.1 == k)
      = some (k, v) := by
  induction fs with
  | nil => cases h
  | cons p rest ih =>
    by_cases hp : (p.1 == k) = true
    · rw [List.map_cons, if_pos hp]
      exact find?_cons_pos _ _ _ (by simp)
    · rw [List.map_cons, if_neg hp,
        find?_cons_neg (fun p => p.1 == k) p _ (Bool.eq_false_iff.mpr hp)]
      apply ih
      rcases List.any_eq_true.mp h with ⟨q, hq, hqk⟩
      rcases List.mem_cons.mp hq with rfl | hq2
      · exact absurd hqk hp
      · exact List.any_eq_true.mpr ⟨q, hq2, hqk⟩

theorem getFieldD_upsert_same (fs : List (String × PyValue)) (k : String)
    (v : PyValue) : getFieldD (upsert fs k v) k = v := by
  unfold upsert getFieldD
  by_cases h : fs.any (fun p => p.1 == k) = true
  · rw [if_pos h, find?_map_replace fs k v h]
  · rw [if_neg h]
    have hnone : fs.find? (fun p => p.1 == k) = Option.none := by
      rw [List.find?_eq_none]
      intro p hp hc
      exact h (List.any_eq_true.mpr ⟨p, hp, hc⟩)
    rw [List.find?_append, hnone]
    simp

theorem getFieldD_upsert_ne (fs : List (String × PyValue)) (k k2 : String)
    (v : PyValue) (hne : k2 ≠ k) : getFieldD (upsert fs k v) k2 = getFieldD fs k2 := by
  unfold upsert getFieldD
  by_cases h : fs.any (fun p => p.1 == k) = true
  · rw [if_pos h, find?_map_invariant]
    · intro p
      by_cases hp : (p.1 == k) = true
      · rw [if_pos hp]
        simp only [beq_iff_eq.mp hp]
      · rw [if_neg hp]
    · intro p hp
      by_cases hpk : (p.1 == k) = true
      · exact absurd ((beq_iff_eq.mp hp).symm.trans (beq_iff_eq.mp hpk)) hne
      · rw [if_neg hpk]
  · rw [if_neg h, List.find?_append]
    have hsing : ([(k, v)].find? (fun p => p.1 == k2)) = Option.none := by
      rw [List.find?_eq_none]
      intro p hp hc
      rw [List.mem_singleton.mp hp] at hc
      exact hne (beq_iff_eq.mp hc).symm
    rw [hsing]
    cases fs.find? (fun p => p.1 == k2) <;> rfl

theorem getFieldD_of_mem_nodup (fs : List (String × PyValue)) (fv : String × PyValue)
    (hmem : fv ∈ fs) (hnodup : (fs.map Prod.fst).Nodup) :
    getFieldD fs fv.1 = fv.2 := by
  induction fs with
  | nil => cases hmem
  | cons p rest ih =>
    rw [List.map_cons, List.nodup_cons] at hnodup
    rcases List.mem_cons.mp hmem with rfl | hmem2
    · unfold getFieldD
      rw [find?_cons_pos (fun p => p.1 == fv.1) fv rest (by simp)]
    · have hne : (p.1 == fv.1) = false := by
        rw [Bool.eq_false_iff]
        intro hc
        exact hnodup.1 ((beq_iff_eq.mp hc) ▸ List.mem_map_of_mem Prod.fst hmem2)
      unfold getFieldD
      rw [find?_cons_neg (fun p => p.1 == fv.1) p rest hne]
      exact ih hmem2 hnodup.2

theorem impFieldStep_get_ne (acc : List (String × PyValue) × Bool)
    (fv : String × PyValue) (k : String) (hne : k ≠ fv.1) :
    getFieldD (impFieldStep acc fv).1 k = getFieldD acc.1 k := by
  unfold impFieldStep
  split
  · exact getFieldD_upsert_ne acc.1 fv.1 k fv.2 hne
  · rfl

theorem impFieldStep_get_same (acc : List (String × PyValue) × Bool)
    (fv : String × PyValue) :
    getFieldD (impFieldStep acc fv).1 fv.1 = fv.2 := by
  unfold impFieldStep
  split
  · exact getFieldD_upsert_same acc.1 fv.1 fv.2
  · rename_i h
    exact not_not.mp h

theorem impField_fold_preserve (rowFields : List (String × PyValue))
    (acc : List (String × PyValue) × Bool) (k : String)
    (hk : k ∉ rowFields.map Prod.fst) :
    getFieldD (rowFields.foldl impFieldStep acc).1 k = getFieldD acc.1 k := by
  induction rowFields generalizing acc with
  | nil => rfl
  | cons fv rest ih =>
    simp only [List.map_cons, List.mem_cons, not_or] at hk
    rw [List.foldl_cons, ih (impFieldStep acc fv) hk.2,
      impFieldStep_get_ne acc fv k hk.1]

theorem impField_fold_establish : ∀ rowFields : List (String × PyValue),
    (rowFields.map Prod.fst).Nodup →
    ∀ (acc : List (String × PyValue) × Bool), ∀ fv ∈ rowFields,
      getFieldD (rowFields.foldl impFieldStep acc).1 fv.1 = fv.2 := by
  intro rowFields
  induction rowFields with
  | nil => intro _ acc fv hfv; cases hfv
  | cons fv0 rest ih =>
    intro hnodup acc fv hfv
    rw [List.map_cons, List.nodup_cons] at hnodup
    rcases List.mem_cons.mp hfv with rfl | hfv2
    · rw [List.foldl_cons, impField_fold_preserve rest _ fv.1 hnodup.1,
        impFieldStep_get_same]
    · rw [List.foldl_cons]
      exact ih hnodup.2 (impFieldStep acc fv0) fv hfv2

theorem imp_update_fields_establish (fs0 rowFields : List (String × PyValue))
    (hnodup : (rowFields.map Prod.fst).Nodup) :
    ∀ fv ∈ rowFields, getFieldD (imp_update_fields fs0 rowFields).1 fv.1 = fv.2 :=
  impField_fold_establish rowFields hnodup (fs0, false)

theorem imp_update_fields_noop : ∀ (rowFields fs0 : List (String × PyValue)),
    (∀ fv ∈ rowFields, getFieldD fs0 fv.1 = fv.2) →
    imp_update_fields fs0 rowFields = (fs0, false) := by
  intro rowFields
  induction rowFields with
  | nil => intro fs0 _; rfl
  | cons fv rest ih =>
    intro fs0 hall
    unfold imp_update_fields at ih ⊢
    rw [List.foldl_cons]
    have hstep : impFieldStep (fs0, false) fv = (fs0, false) := by
      unfold impFieldStep
      rw [if_neg]
      intro hc
      exact hc (hall fv (List.mem_cons_self _ _))
    rw [hstep]
    exact ih fs0 (fun fv2 h2 => hall fv2 (List.mem_cons_of_mem _ h2))

/-! ### The processed-row characterization of the instance loop -/

/-- An instance that fully reflects a mapped row under the given caches:
all scalar fields hold the row's values, the foreign key holds the
resolved ID, and (for a truthy raw value) the many-to-many set equals the
resolved ID set. -/
def ImpDone (cF cM : String → Option Nat) (row : ImpRow) (j : ImpInst) : Prop :=
  (∀ fv ∈ row.fields, getFieldD j.fields fv.1 = fv.2) ∧
  j.fk_id = imp_resolve_fk row cF ∧
  (row.m2mRaw ≠ [] →
    j.m2m_ids.toFinset = (row.m2mRaw.filterMap cM).toFinset)

theorem imp_fk_step_resolves (obj : ImpInst) (row : ImpRow)
    (cF : String → Option Nat) :
    (imp_fk_step obj row cF).1.fk_id = imp_resolve_fk row cF := by
  unfold imp_fk_step
  split
  · rfl
  · rename_i h
    exact not_not.mp h

theorem imp_m2m_step_resolves (obj : ImpInst) (row : ImpRow)
    (cM : String → Option Nat) (hraw : row.m2mRaw ≠ []) :
    (imp_m2m_step obj row cM).1.m2m_ids.toFinset
      = (row.m2mRaw.filterMap cM).toFinset := by
  unfold imp_m2m_step
  rw [if_pos hraw]
  split
  · rfl
  · rename_i h
    exact (not_not.mp h).symm

theorem imp_process_relations_fields (obj : ImpInst) (row : ImpRow)
    (cF cM : String → Option Nat) :
    (imp_process_relations obj row cF cM).1.fields = obj.fields := by
  unfold imp_process_relations
  exact (imp_m2m_step_same _ _ _).2.2.1.trans (imp_fk_step_same _ _ _).2.2.1

theorem imp_process_relations_fk (obj : ImpInst) (row : ImpRow)
    (cF cM : String → Option Nat) :
    (imp_process_relations obj row cF cM).1.fk_id = imp_resolve_fk row cF := by
  unfold imp_process_relations
  exact (imp_m2m_step_same _ _ _).2.2.2.trans (imp_fk_step_resolves _ _ _)

theorem imp_process_relations_m2m (obj : ImpInst) (row : ImpRow)
    (cF cM : String → Option Nat) (hraw : row.m2mRaw ≠ []) :
    (imp_process_relations obj row cF cM).1.m2m_ids.toFinset
      = (row.m2mRaw.filterMap cM).toFinset := by
  unfold imp_process_relations
  exact imp_m2m_step_resolves _ _ _ hraw

theorem nodup_map_inj {α β : Type} (f : α → β) (l : List α)
    (h : (l.map f).Nodup) (a b : α) (ha : a ∈ l) (hb : b ∈ l) (hab : f a = f b) :
    a = b := by
  induction l with
  | nil => cases ha
  | cons x rest ih =>
    rw [List.map_cons, List.nodup_cons] at h
    rcases List.mem_cons.mp ha with rfl | ha2 <;>
      rcases List.mem_cons.mp hb with rfl | hb2
    · rfl
    · exact absurd (hab ▸ List.mem_map_of_mem f hb2) h.1
    · exact absurd (List.mem_map_of_mem f ha2) (by
        intro hc
        exact h.1 (hab ▸ hc))
    · exact ih h.2 ha2 hb2

/-- The invariant carried through the instance loop: primary keys and
external IDs are duplicate-free and consistent with the `in_bulk`
snapshot, fresh keys stay fresh, every live instance is either a snapshot
row or was created for an already-processed key, and every processed entry
is fully reflected by exactly the live instances bearing its key. -/
structure FoldInv (existing : List ImpInst) (cF cM : String → Option Nat)
    (doneList : List (Nat × ImpRow)) (live : List ImpInst) (npk : Nat) : Prop where
  pkNodup : (live.map ImpInst.pk).Nodup
  extNodup : (live.map ImpInst.external_id).Nodup
  liveFresh : ∀ i ∈ live, i.pk < npk
  exFresh : ∀ i ∈ existing, i.pk < npk
  consPk : ∀ j ∈ live, ∀ i ∈ existing, j.pk = i.pk → j.external_id = i.external_id
  consExt : ∀ j ∈ live, ∀ i ∈ existing, j.external_id = i.external_id → j.pk = i.pk
  origin : ∀ j ∈ live, (∃ i ∈ existing, i.external_id = j.external_id) ∨
    j.external_id ∈ doneList.map Prod.fst
  processed : ∀ er ∈ doneList,
    (∃ j ∈ live, j.external_id = er.1) ∧
    (∀ j ∈ live, j.external_id = er.1 → ImpDone cF cM er.2 j)

theorem impStep_done (existing : List ImpInst) (cF cM : String → Option Nat)
    (hexpk : (existing.map ImpInst.pk).Nodup)
    (hexext : (existing.map ImpInst.external_id).Nodup)
    (doneList : List (Nat × ImpRow)) (entry : Nat × ImpRow)
    (live : List ImpInst) (npk : Nat) (stats : ImpStats)
    (hinv : FoldInv existing cF cM doneList live npk)
    (hkey : entry.1 ∉ doneList.map Prod.fst)
    (hrowwf : (entry.2.fields.map Prod.fst).Nodup) :
    FoldInv existing cF cM (doneList ++ [entry])
      (impStep existing cF cM (live, npk, stats) entry).1
      (impStep existing cF cM (live, npk, stats) entry).2.1 := by
  simp only [impStep]
  cases hfind : existing.find? (fun i => i.external_id == entry.1) with
  | none =>
    have hnoex : ∀ i ∈ existing, i.external_id ≠ entry.1 := by
      intro i hi hc
      have := List.find?_eq_none.mp hfind i hi
      exact this (by simpa using hc)
    simp only [hfind, imp_create_or_update]
    have hb : ImpDone cF cM entry.2 (imp_process_relations
        { pk := npk, external_id := entry.1, fields := entry.2.fields,
          fk_id := Option.none, m2m_ids := [] } entry.2 cF cM).1 := by
      refine ⟨?_, imp_process_relations_fk _ _ _ _, fun hr => imp_process_relations_m2m _ _ _ _ hr⟩
      rw [imp_process_relations_fields]
      intro fv hfv
      exact getFieldD_of_mem_nodup _ fv hfv hrowwf
    have hpk2 : (imp_process_relations
        { pk := npk, external_id := entry.1, fields := entry.2.fields,
          fk_id := Option.none, m2m_ids := [] } entry.2 cF cM).1.pk = npk :=
      (imp_process_relations_same _ _ _ _).1
    have hext2 : (imp_process_relations
        { pk := npk, external_id := entry.1, fields := entry.2.fields,
          fk_id := Option.none, m2m_ids := [] } entry.2 cF cM).1.external_id
        = entry.1 :=
      (imp_process_relations_same _ _ _ _).2
    generalize hobj2 : (imp_process_relations
        { pk := npk, external_id := entry.1, fields := entry.2.fields,
          fk_id := Option.none, m2m_ids := [] } entry.2 cF cM).1 = obj2
      at hpk2 hext2 hb ⊢
    have hnolive : ∀ j ∈ live, j.external_id ≠ entry.1 := by
      intro j hj hc
      rcases hinv.origin j hj with ⟨i, hi, hie⟩ | hdone
      · exact hnoex i hi (hie.trans hc)
      · exact hkey (hc ▸ hdone)
    have hnotin : ¬ (live.any (fun i => i.pk == obj2.pk)) = true := by
      intro hc
      obtain ⟨p, hp, hpe⟩ := List.any_eq_true.mp hc
      have hlt := hinv.liveFresh p hp
      rw [beq_iff_eq.mp hpe, hpk2] at hlt
      exact Nat.lt_irrefl _ hlt
    have hstore : storeInst live obj2 = live ++ [obj2] := by
      unfold storeInst
      rw [if_neg hnotin]
    rw [hstore]
    refine ⟨?_, ?_, ?_, ?_, ?_, ?_, ?_, ?_⟩
    · rw [List.map_append]
      simp only [List.nodup_append, List.map_cons, List.map_nil]
      refine ⟨hinv.pkNodup, List.nodup_singleton _, ?_⟩
      intro a ha hb2
      rw [List.mem_singleton.mp hb2] at ha
      obtain ⟨p, hp, hpe⟩ := List.mem_map.mp ha
      have hlt := hinv.liveFresh p hp
      rw [hpe, hpk2] at hlt
      exact Nat.lt_irrefl _ hlt
    · rw [List.map_append]
      simp only [List.nodup_append, List.map_cons, List.map_nil]
      refine ⟨hinv.extNodup, List.nodup_singleton _, ?_⟩
      intro a ha hb2
      rw [List.mem_singleton.mp hb2] at ha
      obtain ⟨p, hp, hpe⟩ := List.mem_map.mp ha
      rw [hext2] at hpe
      exact hnolive p hp hpe
    · intro i hi
      rcases List.mem_append.mp hi with hm | hm
      · exact Nat.lt_succ_of_lt (hinv.liveFresh i hm)
      · rw [List.mem_singleton.mp hm, hpk2]
        exact Nat.lt_succ_self _
    · intro i hi
      exact Nat.lt_succ_of_lt (hinv.exFresh i hi)
    · intro j hj i hi hpki
      rcases List.mem_append.mp hj with hm | hm
      · exact hinv.consPk j hm i hi hpki
      · rw [List.mem_singleton.mp hm, hpk2] at hpki
        exact absurd (hpki ▸ hinv.exFresh i hi) (Nat.lt_irrefl _)
    · intro j hj i hi hext
      rcases List.mem_append.mp hj with hm | hm
      · exact hinv.consExt j hm i hi hext
      · rw [List.mem_singleton.mp hm, hext2] at hext
        exact absurd hext.symm (hnoex i hi)
    · intro j hj
      rcases List.mem_append.mp hj with hm | hm
      · rcases hinv.origin j hm with h | h
        · exact Or.inl h
        · right
          rw [List.map_append]
          exact List.mem_append_left _ h
      · right
        rw [List.mem_singleton.mp hm, hext2, List.map_append]
        exact List.mem_append_right _ (List.mem_singleton.mpr rfl)
    · intro er her
      rcases List.mem_append.mp her with hm | hm
      · obtain ⟨⟨jw, hjw, hjwe⟩, hall⟩ := hinv.processed er hm
        refine ⟨⟨jw, List.mem_append_left _ hjw, hjwe⟩, ?_⟩
        intro j hj hje
        rcases List.mem_append.mp hj with hm2 | hm2
        · exact hall j hm2 hje
        · rw [List.mem_singleton.mp hm2, hext2] at hje
          exact absurd (hje ▸ List.mem_map_of_mem Prod.fst hm) hkey
      · rw [List.mem_singleton.mp hm]
        refine ⟨⟨obj2, List.mem_append_right _ (List.mem_singleton.mpr rfl), hext2⟩, ?_⟩
        intro j hj hje
        rcases List.mem_append.mp hj with hm2 | hm2
        · exact absurd hje (hnolive j hm2)
        · rw [List.mem_singleton.mp hm2]
          exact hb
  | some obj =>
    have hobjmem : obj ∈ existing := List.mem_of_find?_eq_some hfind
    have hobjext : obj.external_id = entry.1 := by
      have hp := @List.find?_some ImpInst (fun i => i.external_id == entry.1)
        obj existing hfind
      exact beq_iff_eq.mp hp
    simp only [hfind, imp_create_or_update]
    have hb : ImpDone cF cM entry.2 (imp_process_relations
        { obj with fields := (imp_update_fields obj.fields entry.2.fields).1 }
        entry.2 cF cM).1 := by
      refine ⟨?_, imp_process_relations_fk _ _ _ _, fun hr => imp_process_relations_m2m _ _ _ _ hr⟩
      rw [imp_process_relations_fields]
      exact imp_update_fields_establish obj.fields entry.2.fields hrowwf
    have hpk2 : (imp_process_relations
        { obj with fields := (imp_update_fields obj.fields entry.2.fields).1 }
        entry.2 cF cM).1.pk = obj.pk :=
      (imp_process_relations_same _ _ _ _).1
    have hext2 : (imp_process_relations
        { obj with fields := (imp_update_fields obj.fields entry.2.fields).1 }
        entry.2 cF cM).1.external_id = obj.external_id :=
      (imp_process_relations_same _ _ _ _).2
    generalize hobj2 : (imp_process_relations
        { obj with fields := (imp_update_fields obj.fields entry.2.fields).1 }
        entry.2 cF cM).1 = obj2 at hpk2 hext2 hb ⊢
    have hextek : obj2.external_id = entry.1 := hext2.trans hobjext
    have hlive_ext_pk : ∀ j ∈ live, j.external_id = entry.1 → j.pk = obj2.pk := by
      intro j hj hje
      rw [hpk2]
      exact hinv.consExt j hj obj hobjmem (hje.trans hobjext.symm)
    refine ⟨?_, ?_, ?_, ?_, ?_, ?_, ?_, ?_⟩
    · rw [storeInst_map_pk]
      split
      · exact hinv.pkNodup
      · rename_i hnoany
        simp only [List.nodup_append, List.map_cons, List.map_nil]
        refine ⟨hinv.pkNodup, List.nodup_singleton _, ?_⟩
        intro a ha hb2
        rw [List.mem_singleton.mp hb2] at ha
        obtain ⟨p, hp, hpe⟩ := List.mem_map.mp ha
        exact hnoany (List.any_eq_true.mpr ⟨p, hp, by rw [hpe]; simp⟩)
    · unfold storeInst
      split
      · rename_i hany
        have hcongr : ∀ i ∈ live,
            ((if i.pk == obj2.pk then obj2 else i) : ImpInst).external_id
              = i.external_id := by
          intro i hi
          by_cases hpk3 : (i.pk == obj2.pk) = true
          · rw [if_pos hpk3, hextek]
            have hie : i.external_id = obj.external_id := by
              refine hinv.consPk i hi obj hobjmem ?_
              rw [beq_iff_eq.mp hpk3, hpk2]
            rw [hie, hobjext]
          · rw [if_neg hpk3]
        rw [List.map_map]
        have : ∀ i ∈ live,
            (ImpInst.external_id ∘ fun i => if i.pk == obj2.pk then obj2 else i) i
              = ImpInst.external_id i := hcongr
        rw [List.map_congr_left this]
        exact hinv.extNodup
      · rename_i hnoany
        rw [List.map_append]
        simp only [List.nodup_append, List.map_cons, List.map_nil]
        refine ⟨hinv.extNodup, List.nodup_singleton _, ?_⟩
        intro a ha hb2
        rw [List.mem_singleton.mp hb2] at ha
        obtain ⟨p, hp, hpe⟩ := List.mem_map.mp ha
        rw [hextek] at hpe
        exact hnoany (List.any_eq_true.mpr
          ⟨p, hp, by rw [hlive_ext_pk p hp hpe]; simp⟩)
    · intro i hi
      rcases storeInst_mem_elim live obj2 i hi with rfl | ⟨hm, _⟩
      · rw [hpk2]
        exact hinv.exFresh obj hobjmem
      · exact hinv.liveFresh i hm
    · intro i hi
      exact hinv.exFresh i hi
    · intro j hj i hi hpki
      rcases storeInst_mem_elim live obj2 j hj with rfl | ⟨hm, _⟩
      · rw [hpk2] at hpki
        rw [hext2, nodup_map_pk_inj existing hexpk obj i hobjmem hi hpki]
      · exact hinv.consPk j hm i hi hpki
    · intro j hj i hi hje
      rcases storeInst_mem_elim live obj2 j hj with rfl | ⟨hm, _⟩
      · rw [hext2] at hje
        rw [hpk2,
          nodup_map_inj ImpInst.external_id existing hexext obj i hobjmem hi hje]
      · exact hinv.consExt j hm i hi hje
    · intro j hj
      rcases storeInst_mem_elim live obj2 j hj with rfl | ⟨hm, _⟩
      · exact Or.inl ⟨obj, hobjmem, hext2.symm⟩
      · rcases hinv.origin j hm with h | h
        · exact Or.inl h
        · right
          rw [List.map_append]
          exact List.mem_append_left _ h
    · intro er her
      rcases List.mem_append.mp her with hm | hm
      · obtain ⟨⟨jw, hjw, hjwe⟩, hall⟩ := hinv.processed er hm
        have hjwpk : jw.pk ≠ obj2.pk := by
          intro hc
          have := hinv.consPk jw hjw obj hobjmem (hc.trans hpk2)
          rw [hjwe, hobjext] at this
          exact hkey (this ▸ List.mem_map_of_mem Prod.fst hm)
        refine ⟨⟨jw, storeInst_mem_ne _ _ _ hjw hjwpk, hjwe⟩, ?_⟩
        intro j hj hje
        rcases storeInst_mem_elim live obj2 j hj with rfl | ⟨hm2, _⟩
        · rw [hextek] at hje
          exact absurd (hje ▸ List.mem_map_of_mem Prod.fst hm) hkey
        · exact hall j hm2 hje
      · rw [List.mem_singleton.mp hm]
        refine ⟨⟨obj2, storeInst_mem_obj _ _, hextek⟩, ?_⟩
        intro j hj hje
        rcases storeInst_mem_elim live obj2 j hj with rfl | ⟨hm2, hpkne⟩
        · exact hb
        · exact absurd (hlive_ext_pk j hm2 hje) hpkne

theorem impFold_done (existing : List ImpInst) (cF cM : String → Option Nat)
    (hexpk : (existing.map ImpInst.pk).Nodup)
    (hexext : (existing.map ImpInst.external_id).Nodup) :
    ∀ (objData doneList : List (Nat × ImpRow)) (live : List ImpInst)
      (npk : Nat) (stats : ImpStats),
      FoldInv existing cF cM doneList live npk →
      ((doneList ++ objData).map Prod.fst).Nodup →
      (∀ er ∈ objData, (er.2.fields.map Prod.fst).Nodup) →
      FoldInv existing cF cM (doneList ++ objData)
        (objData.foldl (impStep existing cF cM) (live, npk, stats)).1
        (objData.foldl (impStep existing cF cM) (live, npk, stats)).2.1 := by
  intro objData
  induction objData with
  | nil =>
    intro doneList live npk stats hinv _ _
    simpa using hinv
  | cons entry rest ih =>
    intro doneList live npk stats hinv hnodup hrows
    have hkey : entry.1 ∉ doneList.map Prod.fst := by
      rw [List.map_append] at hnodup
      have hdisj := (List.nodup_append.mp hnodup).2.2
      intro hc
      exact hdisj hc (by simp)
    have hstep := impStep_done existing cF cM hexpk hexext doneList entry live npk
      stats hinv hkey (hrows entry (List.mem_cons_self _ _))
    have hnodup2 : (((doneList ++ [entry]) ++ rest).map Prod.fst).Nodup := by
      rw [List.append_assoc]
      exact hnodup
    have hrest := ih (doneList ++ [entry])
      (impStep existing cF cM (live, npk, stats) entry).1
      (impStep existing cF cM (live, npk, stats) entry).2.1
      (impStep existing cF cM (live, npk, stats) entry).2.2
      hstep hnodup2 (fun er her => hrows er (List.mem_cons_of_mem _ her))
    rw [List.foldl_cons]
    have happ : doneList ++ entry :: rest = (doneList ++ [entry]) ++ rest := by
      rw [List.append_assoc]
      rfl
    rw [happ]
    exact hrest

theorem get_related_covers (table : List RelEntry) (values : List String)
    (create : Bool) (nextPk : Nat) (t2 : List RelEntry) (pk2 : Nat)
    (hok : get_related_instances table values create nextPk = Except.ok (t2, pk2)) :
    ∀ v ∈ values, t2.any (fun e => e.value == v) = true := by
  simp only [get_related_instances] at hok
  split at hok
  · rename_i hmiss
    rw [Except.ok.injEq, Prod.mk.injEq] at hok
    obtain ⟨ht, _⟩ := hok
    intro v hv
    rw [← ht]
    by_contra hc
    have hvm : v ∈ values.filter (fun v => !(table.any (fun e => e.value == v))) :=
      List.mem_filter.mpr ⟨hv, by simpa using hc⟩
    rw [hmiss] at hvm
    cases hvm
  · split at hok
    · rw [Except.ok.injEq, Prod.mk.injEq] at hok
      obtain ⟨ht, _⟩ := hok
      intro v hv
      rw [← ht]
      by_cases hpresent : table.any (fun e => e.value == v) = true
      · obtain ⟨ent, he, hev⟩ := List.any_eq_true.mp hpresent
        exact List.any_eq_true.mpr ⟨ent, List.mem_append_left _ he, hev⟩
      · have hm : v ∈ values.filter (fun v => !(table.any (fun e => e.value == v))) :=
          List.mem_filter.mpr ⟨hv, by simpa using hpresent⟩
        obtain ⟨idx, hidx, hvi⟩ := List.mem_iff_getElem.mp hm
        refine List.any_eq_true.mpr ⟨⟨nextPk + idx, v⟩, ?_, by simp⟩
        refine List.mem_append_right _ ?_
        refine List.mem_map.mpr ⟨(idx, v), ?_, rfl⟩
        have hlen : idx < ((List.range
            (values.filter (fun v => !(table.any (fun e => e.value == v)))).length).zip
            (values.filter (fun v => !(table.any (fun e => e.value == v))))).length := by
          rw [List.length_zip, List.length_range, Nat.min_self]
          exact hidx
        have hzel : ((List.range
            (values.filter (fun v => !(table.any (fun e => e.value == v)))).length).zip
            (values.filter (fun v => !(table.any (fun e => e.value == v)))))[idx]
            = (idx, v) := by
          rw [List.getElem_zip]
          rw [List.getElem_range, hvi]
        exact hzel ▸ List.getElem_mem hlen
    · cases hok

theorem get_related_noop (table : List RelEntry) (values : List String)
    (create : Bool) (nextPk : Nat)
    (hall : ∀ v ∈ values, table.any (fun e => e.value == v) = true) :
    get_related_instances table values create nextPk = Except.ok (table, nextPk) := by
  simp only [get_related_instances]
  have hmiss : values.filter (fun v => !(table.any (fun e => e.value == v))) = [] := by
    rw [List.filter_eq_nil_iff]
    intro v hv
    simp [hall v hv]
  rw [hmiss]
  rfl

theorem upsert_keys_nodup {α β : Type} [DecidableEq α] (xs : List (α × β)) (k : α)
    (v : β) (h : (xs.map Prod.fst).Nodup) : ((upsert xs k v).map Prod.fst).Nodup := by
  rw [keys_upsert]
  split
  · exact h
  · rename_i hnoany
    refine List.nodup_append.mpr ⟨h, List.nodup_singleton _, ?_⟩
    intro a ha hb
    rw [List.mem_singleton.mp hb] at ha
    obtain ⟨p, hp, hpe⟩ := List.mem_map.mp ha
    exact hnoany (List.any_eq_true.mpr ⟨p, hp, by rw [hpe]; simp⟩)

theorem buildObjData_keys_nodup (rows : List ImpRow) :
    ((buildObjData rows).map Prod.fst).Nodup := by
  suffices h : ∀ acc : List (Nat × ImpRow), (acc.map Prod.fst).Nodup →
      ((rows.foldl (fun a row => upsert a row.external_id row) acc).map
        Prod.fst).Nodup from h [] List.nodup_nil
  induction rows with
  | nil => intro acc h; exact h
  | cons row rest ih =>
    intro acc h
    rw [List.foldl_cons]
    exact ih _ (upsert_keys_nodup acc _ _ h)

theorem impStep_noop (existing : List ImpInst) (cF cM : String → Option Nat)
    (live : List ImpInst) (npk : Nat) (stats : ImpStats) (entry : Nat × ImpRow)
    (j : ImpInst)
    (hfind : existing.find? (fun i => i.external_id == entry.1) = some j)
    (hjmem : j ∈ live) (hpk : (live.map ImpInst.pk).Nodup)
    (hdone : ImpDone cF cM entry.2 j) :
    impStep existing cF cM (live, npk, stats) entry = (live, npk, stats) := by
  have hupd : imp_update_fields j.fields entry.2.fields = (j.fields, false) :=
    imp_update_fields_noop entry.2.fields j.fields hdone.1
  have hobj1 : imp_create_or_update (some j) entry.1 entry.2.fields npk
      = (j, npk, false, false) := by
    simp only [imp_create_or_update, hupd]
  have hfk : imp_fk_step j entry.2 cF = (j, 0) := by
    unfold imp_fk_step
    rw [if_neg (fun hc => hc hdone.2.1)]
  have hm2m : imp_m2m_step j entry.2 cM = (j, 0) := by
    unfold imp_m2m_step
    by_cases hr : entry.2.m2mRaw ≠ []
    · rw [if_pos hr, if_neg (fun hc => hc (hdone.2.2 hr).symm)]
    · rw [if_neg hr]
  have hproc : imp_process_relations j entry.2 cF cM = (j, 0) := by
    unfold imp_process_relations
    rw [hfk, hm2m]
    rfl
  simp only [impStep, hfind, hobj1, hproc, storeInst_self live j hjmem hpk]
  rfl

theorem impFold_noop (existing : List ImpInst) (cF cM : String → Option Nat)
    (live : List ImpInst) (hpk : (live.map ImpInst.pk).Nodup) :
    ∀ (entries : List (Nat × ImpRow)) (npk : Nat) (stats : ImpStats),
      (∀ entry ∈ entries, ∃ j,
        existing.find? (fun i => i.external_id == entry.1) = some j ∧
        j ∈ live ∧ ImpDone cF cM entry.2 j) →
      entries.foldl (impStep existing cF cM) (live, npk, stats)
        = (live, npk, stats) := by
  intro entries
  induction entries with
  | nil => intro npk stats _; rfl
  | cons entry rest ih =>
    intro npk stats hall
    obtain ⟨j, hfind, hjm, hdone⟩ := hall entry (List.mem_cons_self _ _)
    rw [List.foldl_cons,
      impStep_noop existing cF cM live npk stats entry j hfind hjm hpk hdone]
    exact ih npk stats (fun e he => hall e (List.mem_cons_of_mem _ he))

/-- C5: re-running the pull importer on the same remote rows immediately
after a successful run performs zero creates, zero updates and zero
deletes — the second run succeeds with all stats counters at zero. -/
theorem C5_second_pull_run_is_noop
    (nullLabel : String) (createFk createM2m : Bool)
    (st : ImpState) (rows : List ImpRow) (st1 : ImpState) (stats1 : ImpStats)
    (hpk : (st.insts.map ImpInst.pk).Nodup)
    (hext : (st.insts.map ImpInst.external_id).Nodup)
    (hfresh : ∀ i ∈ st.insts, i.pk < st.nextPk)
    (hrows : ∀ row ∈ rows, (row.fields.map Prod.fst).Nodup)
    (h1 : imp_run nullLabel createFk createM2m st rows = Except.ok (st1, stats1)) :
    ∃ st2 : ImpState,
      imp_run nullLabel createFk createM2m st1 rows
        = Except.ok (st2, ⟨0, 0, 0⟩) := by
  simp only [imp_run] at h1
  rcases hfk : get_related_instances st.relFk (collectRelValues nullLabel rows).1
      createFk st.nextPk with e | ⟨relFk2, pk2⟩
  · simp only [hfk] at h1
    exact Except.noConfusion h1
  simp only [hfk] at h1
  rcases hm2m : get_related_instances st.relM2m (collectRelValues nullLabel rows).2
      createM2m pk2 with e | ⟨relM2m2, pk3⟩
  · simp only [hm2m] at h1
    exact Except.noConfusion h1
  simp only [hm2m] at h1
  rw [Except.ok.injEq, Prod.mk.injEq] at h1
  obtain ⟨hst1, _⟩ := h1
  have hin : st1.insts =
      ((buildObjData rows).foldl
        (impStep st.insts (cacheLookup relFk2 (collectRelValues nullLabel rows).1)
          (cacheLookup relM2m2 (collectRelValues nullLabel rows).2))
        (st.insts, pk3, ⟨0, 0, 0⟩)).1.filter
        (fun i => decide (i.external_id ∉
          ((st.insts.map ImpInst.external_id).filter
            (fun e => decide (e ∉ (buildObjData rows).map Prod.fst))).dedup)) := by
    rw [← hst1]
  have hrelfk : st1.relFk = relFk2 := by rw [← hst1]
  have hrelm2m : st1.relM2m = relM2m2 := by rw [← hst1]
  have hnext : st1.nextPk =
      ((buildObjData rows).foldl
        (impStep st.insts (cacheLookup relFk2 (collectRelValues nullLabel rows).1)
          (cacheLookup relM2m2 (collectRelValues nullLabel rows).2))
        (st.insts, pk3, ⟨0, 0, 0⟩)).2.1 := by
    rw [← hst1]
  have hpk3 : st.nextPk ≤ pk3 :=
    Nat.le_trans (get_related_pk_le _ _ _ _ _ _ hfk)
      (get_related_pk_le _ _ _ _ _ _ hm2m)
  have hinv0 : FoldInv st.insts
      (cacheLookup relFk2 (collectRelValues nullLabel rows).1)
      (cacheLookup relM2m2 (collectRelValues nullLabel rows).2)
      [] st.insts pk3 := by
    refine ⟨hpk, hext, ?_, ?_, ?_, ?_, ?_, ?_⟩
    · exact fun i hi => Nat.lt_of_lt_of_le (hfresh i hi) hpk3
    · exact fun i hi => Nat.lt_of_lt_of_le (hfresh i hi) hpk3
    · intro j hj i hi hpki
      rw [nodup_map_pk_inj st.insts hpk j i hj hi hpki]
    · intro j hj i hi hje
      rw [nodup_map_inj ImpInst.external_id st.insts hext j i hj hi hje]
    · intro j hj
      exact Or.inl ⟨j, hj, rfl⟩
    · intro er her
      cases her
  have hinv := impFold_done st.insts
    (cacheLookup relFk2 (collectRelValues nullLabel rows).1)
    (cacheLookup relM2m2 (collectRelValues nullLabel rows).2) hpk hext
    (buildObjData rows) [] st.insts pk3 ⟨0, 0, 0⟩ hinv0
    (by simpa using buildObjData_keys_nodup rows)
    (fun er her => hrows er.2 (mem_buildObjData rows er her).1)
  rw [List.nil_append] at hinv
  -- properties of the filtered final state
  have hFpk : (st1.insts.map ImpInst.pk).Nodup := by
    rw [hin]
    exact List.Nodup.sublist (List.Sublist.map _ (List.filter_sublist _))
      hinv.pkNodup
  have hFext : ∀ j ∈ st1.insts,
      j.external_id ∈ (buildObjData rows).map Prod.fst := by
    intro j hj
    rw [hin] at hj
    obtain ⟨hjm, hjkeep⟩ := List.mem_filter.mp hj
    rw [decide_eq_true_eq] at hjkeep
    by_contra hnotin
    apply hjkeep
    rw [List.mem_dedup, List.mem_filter, decide_eq_true_eq]
    refine ⟨?_, hnotin⟩
    rcases hinv.origin j hjm with ⟨i, hi, hie⟩ | hk
    · exact hie ▸ List.mem_map_of_mem ImpInst.external_id hi
    · exact absurd hk hnotin
  have hentry : ∀ entry ∈ buildObjData rows, ∃ j,
      st1.insts.find? (fun i => i.external_id == entry.1) = some j ∧
      j ∈ st1.insts ∧
      ImpDone (cacheLookup relFk2 (collectRelValues nullLabel rows).1)
        (cacheLookup relM2m2 (collectRelValues nullLabel rows).2) entry.2 j := by
    intro entry hentrym
    obtain ⟨⟨jw, hjw, hjwe⟩, hall⟩ := hinv.processed entry hentrym
    have hkeymem : entry.1 ∈ (buildObjData rows).map Prod.fst :=
      List.mem_map_of_mem Prod.fst hentrym
    have hjwF : jw ∈ st1.insts := by
      rw [hin]
      refine List.mem_filter.mpr ⟨hjw, ?_⟩
      rw [decide_eq_true_eq]
      intro hdel
      rw [List.mem_dedup, List.mem_filter, decide_eq_true_eq] at hdel
      exact hdel.2 (hjwe ▸ hkeymem)
    have hsome : (st1.insts.find? (fun i => i.external_id == entry.1)).isSome := by
      rw [List.find?_isSome]
      exact ⟨jw, hjwF, by simpa using hjwe⟩
    obtain ⟨j, hj⟩ := Option.isSome_iff_exists.mp hsome
    have hjmemF : j ∈ st1.insts := List.mem_of_find?_eq_some hj
    have hjmem1 : j ∈ ((buildObjData rows).foldl
        (impStep st.insts (cacheLookup relFk2 (collectRelValues nullLabel rows).1)
          (cacheLookup relM2m2 (collectRelValues nullLabel rows).2))
        (st.insts, pk3, ⟨0, 0, 0⟩)).1 := by
      have := hjmemF
      rw [hin] at this
      exact (List.mem_filter.mp this).1
    have hjext : j.external_id = entry.1 := by
      have hp := @List.find?_some ImpInst (fun i => i.external_id == entry.1)
        j st1.insts hj
      exact beq_iff_eq.mp hp
    exact ⟨j, hj, hjmemF, hall j hjmem1 hjext⟩
  -- the second run
  simp only [imp_run]
  rw [hrelfk, hrelm2m]
  simp only [get_related_noop relFk2 (collectRelValues nullLabel rows).1 createFk
    st1.nextPk (get_related_covers st.relFk _ createFk st.nextPk relFk2 pk2 hfk)]
  simp only [get_related_noop relM2m2 (collectRelValues nullLabel rows).2 createM2m
    st1.nextPk (get_related_covers st.relM2m _ createM2m pk2 relM2m2 pk3 hm2m)]
  simp only [impFold_noop st1.insts
    (cacheLookup relFk2 (collectRelValues nullLabel rows).1)
    (cacheLookup relM2m2 (collectRelValues nullLabel rows).2)
    st1.insts hFpk (buildObjData rows) st1.nextPk ⟨0, 0, 0⟩ hentry]
  have htd2 : ((st1.insts.map ImpInst.external_id).filter
      (fun e => decide (e ∉ (buildObjData rows).map Prod.fst))).dedup = [] := by
    have hfilter : (st1.insts.map ImpInst.external_id).filter
        (fun e => decide (e ∉ (buildObjData rows).map Prod.fst)) = [] := by
      rw [List.filter_eq_nil_iff]
      intro a ha
      obtain ⟨j, hjm, hje⟩ := List.mem_map.mp ha
      rw [decide_eq_true_eq]
      intro hc
      exact hc (hje ▸ hFext j hjm)
    rw [hfilter]
    rfl
  simp only [htd2]
  simp only [ne_eq, not_true_eq_false, if_false]
  exact ⟨_, rfl⟩

/-- Concrete instantiation of pull idempotence: re-running the pull of the
C4 scenario on its resulting state performs no creates, updates or
deletes. -/
theorem C5_second_pull_run_is_noop_witness :
    ∃ st2 : ImpState,
      imp_run "NULL" true true c4St2 c4Rows = Except.ok (st2, ⟨0, 0, 0⟩) :=
  C5_second_pull_run_is_noop "NULL" true true c4St c4Rows c4St2 ⟨0, 1, 1⟩
    (by decide) (by decide) (by decide) (by decide) rfl

end FroideEvidence
